import Mathlib

/-!
Verification model of `ordinal_tsf/session.py`.

The file shallowly embeds the orchestration logic of the repository:

* `Session.start_experiment` (directory creation),
* `StrategyExperiment.build_prediction` (flag-driven dispatch over the raw
  prediction dictionary), and
* `StrategyExperiment.choose_model` (grid search with file-system-backed
  memoization, best-per-metric tracking and a seed-window assertion).

Python dictionaries are modelled as association lists that preserve insertion
order and overwrite in place, matching CPython semantics.  External
collaborators (the Strategy class, the raw model, pickled artifacts, the
matplotlib surface) are opaque parameters of the model; the file system is a
record of name-indexed stores.  Numeric values are carried by `ℚ`.
-/

deriving instance DecidableEq for Except

namespace OrdinalTsf

/-- A Python `dict` keyed by strings: an association list that preserves
insertion order.  `insert` overwrites in place (like `d[k] = v`), `get?` finds
the first (unique, in practice) occurrence of a key. -/
abbrev Dict (α : Type) : Type := List (String × α)

namespace Dict

variable {α : Type}

/-- `d.get(k)` / `d[k]` as a partial lookup. -/
def get? : Dict α → String → Option α
  | [], _ => none
  | (k, v) :: rest, key => if k = key then some v else get? rest key

/-- `d[k] = v`: replace the value at `k` in place, else append the pair. -/
def insert : Dict α → String → α → Dict α
  | [], key, val => [(key, val)]
  | (k, v) :: rest, key, val =>
      if k = key then (k, val) :: rest else (k, v) :: insert rest key val

/-- `k in d`. -/
def hasKey : Dict α → String → Bool
  | [], _ => false
  | (k, _) :: rest, key => if k = key then true else hasKey rest key

/-- Sequential assignments `d[k] = v` for each pair of `l`, left to right. -/
def insertMany (d : Dict α) (l : List (String × α)) : Dict α :=
  l.foldl (fun d kv => insert d kv.1 kv.2) d

theorem get?_insert_self (d : Dict α) (k : String) (v : α) :
    get? (insert d k v) k = some v := by
  induction d with
  | nil => simp [insert, get?]
  | cons hd tl ih =>
      obtain ⟨k', v'⟩ := hd
      by_cases h : k' = k
      · simp [insert, get?, h]
      · simp [insert, get?, h, ih]

theorem get?_insert_ne (d : Dict α) (k k' : String) (v : α) (h : k' ≠ k) :
    get? (insert d k v) k' = get? d k' := by
  induction d with
  | nil => simp [insert, get?, Ne.symm h]
  | cons hd tl ih =>
      obtain ⟨k₀, v₀⟩ := hd
      by_cases h0 : k₀ = k
      · simp [insert, get?, h0, Ne.symm h]
      · by_cases h1 : k₀ = k'
        · subst h1
          simp [insert, get?, h0]
        · simp [insert, get?, h0, h1, ih]

theorem insert_insert_same (d : Dict α) (k : String) (v w : α) :
    insert (insert d k v) k w = insert d k w := by
  induction d with
  | nil => simp [insert]
  | cons hd tl ih =>
      obtain ⟨k₀, v₀⟩ := hd
      by_cases h0 : k₀ = k
      · simp [insert, h0]
      · simp [insert, h0, ih]

theorem insert_self (d : Dict α) (k : String) (v : α) (h : get? d k = some v) :
    insert d k v = d := by
  induction d with
  | nil => simp [get?] at h
  | cons hd tl ih =>
      obtain ⟨k₀, v₀⟩ := hd
      by_cases h0 : k₀ = k
      · simp [get?, h0] at h
        simp [insert, h0, h]
      · simp [get?, h0] at h
        simp [insert, h0, ih h]

theorem hasKey_insert_self (d : Dict α) (k : String) (v : α) :
    hasKey (insert d k v) k = true := by
  induction d with
  | nil => simp [insert, hasKey]
  | cons hd tl ih =>
      obtain ⟨k₀, v₀⟩ := hd
      by_cases h0 : k₀ = k
      · simp [insert, hasKey, h0]
      · simp [insert, hasKey, h0, ih]

theorem hasKey_insert_of (d : Dict α) (k k' : String) (v : α)
    (h : hasKey d k' = true) : hasKey (insert d k v) k' = true := by
  induction d with
  | nil => simp [hasKey] at h
  | cons hd tl ih =>
      obtain ⟨k₀, v₀⟩ := hd
      by_cases h0 : k₀ = k
      · subst h0
        by_cases h1 : k₀ = k'
        · subst h1
          simp [insert, hasKey]
        · simp [hasKey, h1] at h
          simp [insert, hasKey, h1, h]
      · by_cases h1 : k₀ = k'
        · subst h1
          simp [insert, hasKey, h0]
        · simp [hasKey, h1] at h
          simp [insert, hasKey, h0, h1, ih h]

theorem get?_isSome_insert (d : Dict α) (k k' : String) (v : α)
    (h : (get? d k').isSome) : (get? (insert d k v) k').isSome := by
  by_cases hk : k' = k
  · subst hk
    simp [get?_insert_self]
  · simpa [get?_insert_ne d k k' v hk] using h

theorem insert_comm (d : Dict α) (k k' : String) (v w : α)
    (hmem : hasKey d k = true) (hne : k' ≠ k) :
    insert (insert d k v) k' w = insert (insert d k' w) k v := by
  induction d with
  | nil => simp [hasKey] at hmem
  | cons hd tl ih =>
      obtain ⟨k₀, v₀⟩ := hd
      by_cases h0 : k₀ = k
      · subst h0
        have h1 : ¬ (k₀ = k') := fun hh => hne hh.symm
        simp [insert, h1]
      · by_cases h1 : k₀ = k'
        · subst h1
          simp [insert, h0]
        · have hmem' : hasKey tl k = true := by simpa [hasKey, h0] using hmem
          simp [insert, h0, h1, ih hmem']

theorem get?_insertMany_not_mem (d : Dict α) (l : List (String × α)) (k : String)
    (h : k ∉ l.map Prod.fst) : get? (insertMany d l) k = get? d k := by
  induction l generalizing d with
  | nil => simp [insertMany]
  | cons hd tl ih =>
      obtain ⟨k₀, v₀⟩ := hd
      have h1 : k ≠ k₀ := fun hh => h (by simp [hh])
      have h2 : k ∉ tl.map Prod.fst := fun hh => h (by simp [hh])
      have step : insertMany d ((k₀, v₀) :: tl) = insertMany (insert d k₀ v₀) tl := by
        simp [insertMany]
      rw [step, ih (insert d k₀ v₀) h2, get?_insert_ne d k₀ k v₀ h1]

theorem hasKey_insertMany_of (d : Dict α) (l : List (String × α)) (k : String)
    (h : hasKey d k = true) : hasKey (insertMany d l) k = true := by
  induction l generalizing d with
  | nil => simpa [insertMany] using h
  | cons hd tl ih =>
      have step : insertMany d (hd :: tl) = insertMany (insert d hd.1 hd.2) tl := by
        simp [insertMany]
      rw [step]
      exact ih (insert d hd.1 hd.2) (hasKey_insert_of d hd.1 k hd.2 h)

theorem insertMany_insert_comm (d : Dict α) (l : List (String × α)) (k : String) (v : α)
    (hk : hasKey d k = true) (hl : k ∉ l.map Prod.fst) :
    insertMany (insert d k v) l = insert (insertMany d l) k v := by
  induction l generalizing d with
  | nil => simp [insertMany]
  | cons hd tl ih =>
      obtain ⟨k₀, v₀⟩ := hd
      have hl1 : k ≠ k₀ := fun hh => hl (by simp [hh])
      have hl2 : k ∉ tl.map Prod.fst := fun hh => hl (by simp [hh])
      have hcomm := insert_comm d k k₀ v v₀ hk (Ne.symm hl1)
      calc insertMany (insert d k v) ((k₀, v₀) :: tl)
          = insertMany (insert (insert d k v) k₀ v₀) tl := by simp [insertMany]
        _ = insertMany (insert (insert d k₀ v₀) k v) tl := by rw [hcomm]
        _ = insert (insertMany (insert d k₀ v₀) tl) k v :=
            ih (insert d k₀ v₀) (hasKey_insert_of d k₀ k v₀ hk) hl2
        _ = insert (insertMany d ((k₀, v₀) :: tl)) k v := by simp [insertMany]

theorem get?_insertMany_get (d : Dict α) (l : List (String × α)) (k : String) (v : α)
    (hnd : (l.map Prod.fst).Nodup) (hmem : (k, v) ∈ l) :
    get? (insertMany d l) k = some v := by
  induction l generalizing d with
  | nil => simp at hmem
  | cons hd tl ih =>
      obtain ⟨k₀, v₀⟩ := hd
      rw [List.map_cons, List.nodup_cons] at hnd
      have step : insertMany d ((k₀, v₀) :: tl) = insertMany (insert d k₀ v₀) tl := by
        simp [insertMany]
      rcases List.mem_cons.mp hmem with heq | hmem'
      · have hk : k = k₀ := congrArg Prod.fst heq
        have hv : v = v₀ := congrArg Prod.snd heq
        subst hk
        subst hv
        have hnotin : k ∉ tl.map Prod.fst := hnd.1
        rw [step, get?_insertMany_not_mem (insert d k v) tl k hnotin,
          get?_insert_self]
      · rw [step]
        exact ih (insert d k₀ v₀) hnd.2 hmem'

theorem insertMany_idem (d : Dict α) (l : List (String × α))
    (hnd : (l.map Prod.fst).Nodup) :
    insertMany (insertMany d l) l = insertMany d l := by
  induction l generalizing d with
  | nil => simp [insertMany]
  | cons hd tl ih =>
      obtain ⟨k, v⟩ := hd
      rw [List.map_cons, List.nodup_cons] at hnd
      have hknot : k ∉ tl.map Prod.fst := hnd.1
      have hkeys : hasKey (insert d k v) k = true := hasKey_insert_self d k v
      have hkeys2 : hasKey (insertMany (insert d k v) tl) k = true :=
        hasKey_insertMany_of (insert d k v) tl k hkeys
      have hget : get? (insertMany (insert d k v) tl) k = some v := by
        rw [get?_insertMany_not_mem (insert d k v) tl k hknot, get?_insert_self]
      calc insertMany (insertMany d ((k, v) :: tl)) ((k, v) :: tl)
          = insertMany (insert (insertMany (insert d k v) tl) k v) tl := by
            simp [insertMany]
        _ = insert (insertMany (insertMany (insert d k v) tl) tl) k v :=
            insertMany_insert_comm _ tl k v hkeys2 hknot
        _ = insert (insertMany (insert d k v) tl) k v := by rw [ih _ hnd.2]
        _ = insertMany (insert d k v) tl := insert_self _ k v hget
        _ = insertMany d ((k, v) :: tl) := by simp [insertMany]

end Dict

/-- A value stored in a raw prediction dict / in `dataset.optional_params`:
either a (numpy) scalar or a nested array. -/
inductive Val where
  | num (q : ℚ)
  | arr (xs : List Val)

mutual

/-- Decidable equality on values. -/
def Val.decEq : (a b : Val) → Decidable (a = b)
  | .num a, .num b =>
      if h : a = b then .isTrue (by rw [h])
      else .isFalse (fun hh => h (Val.num.inj hh))
  | .num _, .arr _ => .isFalse (fun hh => Val.noConfusion hh)
  | .arr _, .num _ => .isFalse (fun hh => Val.noConfusion hh)
  | .arr xs, .arr ys =>
      match Val.decEqList xs ys with
      | .isTrue h => .isTrue (by rw [h])
      | .isFalse h => .isFalse (fun hh => h (Val.arr.inj hh))

/-- Decidable equality on lists of values. -/
def Val.decEqList : (xs ys : List Val) → Decidable (xs = ys)
  | [], [] => .isTrue rfl
  | [], _ :: _ => .isFalse (fun hh => List.noConfusion hh)
  | _ :: _, [] => .isFalse (fun hh => List.noConfusion hh)
  | x :: xs, y :: ys =>
      match Val.decEq x y, Val.decEqList xs ys with
      | .isTrue h1, .isTrue h2 => .isTrue (by rw [h1, h2])
      | .isFalse h1, _ => .isFalse (fun hh => h1 (List.cons.inj hh).1)
      | _, .isFalse h2 => .isFalse (fun hh => h2 (List.cons.inj hh).2)

end

instance : DecidableEq Val := Val.decEq

/-- A raw prediction dict, an `optional_params` dict or a `pred_args` dict. -/
abbrev PDict : Type := Dict Val

/-- Python truthiness of a value: `0` and the empty sequence are falsy. -/
def Val.truthy : Val → Bool
  | .num q => q ≠ 0
  | .arr xs => !xs.isEmpty

/-- Is this a scalar (an entry of the innermost axis)? -/
def Val.isNum : Val → Bool
  | .num _ => true
  | .arr _ => false

/-- `v[0]`: the first element of a sequence; `none` on a scalar (TypeError)
or an empty sequence (IndexError). -/
def Val.first? : Val → Option Val
  | .arr (x :: _) => some x
  | _ => none

/-- `v[i]` for sequences. -/
def Val.at? : Val → Nat → Option Val
  | .arr xs, i => xs.get? i
  | .num _, _ => none

mutual

/-- `v.take(-1, axis=-1)`: drop the last axis, keeping its last entry.
`none` models the numpy error on a scalar or an empty last axis. -/
def Val.lastAxis : Val → Option Val
  | .num _ => none
  | .arr xs =>
      if xs.all Val.isNum then xs.getLast?
      else (Val.lastAxisList xs).map Val.arr

/-- `lastAxis` mapped over a list of subarrays, failing if any entry fails. -/
def Val.lastAxisList : List Val → Option (List Val)
  | [] => some []
  | x :: rest =>
      match Val.lastAxis x, Val.lastAxisList rest with
      | some y, some ys => some (y :: ys)
      | _, _ => none

end

/-- `d.get(k, False)` used as a branch guard: key present and truthy. -/
def flagOn (d : PDict) (k : String) : Bool :=
  match Dict.get? d k with
  | some v => v.truthy
  | none => false

/-- The in-place update `for k, v in prediction.items(): prediction[k] =
v.take(-1, axis=-1)` performed by the `is_attractor` branch. -/
def attractorMutate : PDict → Option PDict
  | [] => some []
  | (k, v) :: rest =>
      match Val.lastAxis v, attractorMutate rest with
      | some w, some ws => some ((k, w) :: ws)
      | _, _ => none

/-- The branches of the `build_prediction` cascade, in source order. -/
inductive Branch where
  | mvar
  | arQuant
  | isList
  | isArray
  | centroids
  | sarimax
  | attractor
  | ordinal
  | gaussianDefault
deriving DecidableEq

/-- The typed Prediction object returned by `build_prediction`.  The
prediction classes live in `ordinal_tsf.dataset` (outside this model), so a
variant records the constructor that was called together with its
arguments. -/
inductive PredVariant where
  | multivarVBGMM (draws ranges : Val)
  | multivariateOrdinal (quant : Val) (kwargs : PDict)
  | predictionList (elems : List (Val × Val × Val))
  | ordinalArray (kwargs : PDict)
  | gaussianFromDict (d : PDict)
  | ordinalPred (kwargs : PDict)
  | gaussianKw (kwargs : PDict)
deriving DecidableEq

/-- Result of `build_prediction`: the Prediction object built, the final
contents of the caller's `prediction` dict (the method mutates it in several
branches), and the cascade branches whose bodies ran, in order. -/
structure BuildOut where
  variant : PredVariant
  pred : PDict
  fired : List Branch
deriving DecidableEq

/-- Elements of the list comprehension in the `is_list` branch:
`OrdinalPrediction(ordinal_pdf[i], draws[i], optional_params_list[i]['bins'])`
for `i in range(n_ar)`.  `draws?` is looked up lazily: with an empty
`ordinal_pdf` the comprehension body never runs, so a missing `draws` key is
only an error when the loop executes. -/
def buildListElems (draws? : Option Val) (opl : List PDict) :
    List Val → Nat → Except String (List (Val × Val × Val))
  | [], _ => .ok []
  | pdf :: rest, i =>
      match draws? with
      | none => .error "KeyError: draws"
      | some draws =>
          match draws.at? i, (opl.get? i).bind (fun d => Dict.get? d "bins") with
          | some dr, some b =>
              (buildListElems draws? opl rest (i + 1)).map (fun es => (pdf, dr, b) :: es)
          | _, _ => .error "is_list: bad index or missing bins"

/-- `StrategyExperiment.build_prediction(self, prediction, pred_args)`.

Arguments, in order: `self.dataset.optional_params`,
`self.dataset.optional_params_list`, `pred_args`, `prediction`.  The cascade
of `if` statements is transcribed branch for branch; each branch except
`is_attractor` returns, `is_attractor` rewrites every field in place and
falls through to the `is_ordinal` check / the final Gaussian wrapper.
`Except.error` models the Python exceptions (KeyError, IndexError,
TypeError) a branch body can raise. -/
def build_prediction (optionalParams : PDict) (optionalParamsList : List PDict)
    (predArgs : PDict) (prediction : PDict) : Except String BuildOut :=
  if flagOn prediction "mvar_x_ranges" then
    match Dict.get? prediction "draws", Dict.get? prediction "mvar_x_ranges" with
    | some dr, some rg => .ok ⟨.multivarVBGMM dr rg, prediction, [.mvar]⟩
    | _, _ => .error "KeyError: draws"
  else if flagOn predArgs "ar_quant" then
    match (Dict.get? prediction "ordinal_pdf").bind Val.first? with
    | none => .error "ordinal_pdf missing or not indexable"
    | some pdf0 =>
        match (Dict.get? (Dict.insert prediction "ordinal_pdf" pdf0) "draws").bind Val.first? with
        | none => .error "draws missing or not indexable"
        | some dr0 =>
            match Dict.get? predArgs "ar_quant" with
            | some q =>
                .ok ⟨.multivariateOrdinal q
                    (Dict.insert (Dict.insert prediction "ordinal_pdf" pdf0) "draws" dr0),
                  Dict.insert (Dict.insert prediction "ordinal_pdf" pdf0) "draws" dr0,
                  [.arQuant]⟩
            | none => .error "unreachable: guard held"
  else if flagOn optionalParams "is_list" then
    match Dict.get? prediction "ordinal_pdf" with
    | some (.arr pdfs) =>
        (buildListElems (Dict.get? prediction "draws") optionalParamsList pdfs 0).map
          (fun es => ⟨.predictionList es, prediction, [.isList]⟩)
    | some (.num _) => .error "TypeError: len of scalar"
    | none => .error "KeyError: ordinal_pdf"
  else if flagOn optionalParams "is_array" then
    match Dict.get? optionalParams "bins" with
    | some b =>
        .ok ⟨.ordinalArray (Dict.insert prediction "bins" b),
          Dict.insert prediction "bins" b, [.isArray]⟩
    | none => .error "KeyError: bins"
  else if flagOn optionalParams "centroids" then
    match Dict.get? predArgs "quant" with
    | some q => .ok ⟨.multivariateOrdinal q prediction, prediction, [.centroids]⟩
    | none => .error "KeyError: quant"
  else if flagOn optionalParams "is_sarimax" then
    .ok ⟨.gaussianFromDict prediction, prediction, [.sarimax]⟩
  else
    match
      (if flagOn optionalParams "is_attractor" then
        (attractorMutate prediction).map (fun d => (d, [Branch.attractor]))
      else some (prediction, ([] : List Branch))) with
    | none => .error "is_attractor: take(-1, axis=-1) failed"
    | some (prediction, fired0) =>
        if flagOn optionalParams "is_ordinal" then
          match Dict.get? optionalParams "bins" with
          | some b =>
              .ok ⟨.ordinalPred (Dict.insert prediction "bins" b),
                Dict.insert prediction "bins" b, fired0 ++ [.ordinal]⟩
          | none => .error "KeyError: bins"
        else
          .ok ⟨.gaussianKw prediction, prediction, fired0 ++ [.gaussianDefault]⟩

/-- Modelled from the spec: the documented dispatch priority of
`build_prediction` — mixture-model ranges, then the autoregressive-quantile
flag, list, array, centroid, SARIMAX, then the attractor flag (which takes
the last time step of each field and passes on), then the ordinal flag, then
the default Gaussian wrapper.  This is the spec-side selector used to state
the refinement claim about the cascade; it reads only the flags. -/
def specPriorityBranches (optionalParams predArgs prediction : PDict) : List Branch :=
  if flagOn prediction "mvar_x_ranges" then [.mvar]
  else if flagOn predArgs "ar_quant" then [.arQuant]
  else if flagOn optionalParams "is_list" then [.isList]
  else if flagOn optionalParams "is_array" then [.isArray]
  else if flagOn optionalParams "centroids" then [.centroids]
  else if flagOn optionalParams "is_sarimax" then [.sarimax]
  else
    (if flagOn optionalParams "is_attractor" then [Branch.attractor] else []) ++
      (if flagOn optionalParams "is_ordinal" then [Branch.ordinal]
       else [Branch.gaussianDefault])

theorem build_prediction_fired_eq (op : PDict) (opl : List PDict) (args pred : PDict)
    (out : BuildOut) (h : build_prediction op opl args pred = .ok out) :
    out.fired = specPriorityBranches op args pred := by
  unfold build_prediction at h
  by_cases h1 : flagOn pred "mvar_x_ranges"
  · rw [if_pos h1] at h
    split at h
    · injection h with h
      subst h
      simp [specPriorityBranches, h1]
    · cases h
  · rw [if_neg h1] at h
    by_cases h2 : flagOn args "ar_quant"
    · rw [if_pos h2] at h
      split at h
      · cases h
      · split at h
        · cases h
        · split at h
          · injection h with h
            subst h
            simp [specPriorityBranches, h1, h2]
          · cases h
    · rw [if_neg h2] at h
      by_cases h3 : flagOn op "is_list"
      · rw [if_pos h3] at h
        split at h
        · rename_i pdfs _
          cases hb : buildListElems (Dict.get? pred "draws") opl pdfs 0 with
          | ok es =>
              rw [hb] at h
              simp only [Except.map] at h
              injection h with h
              subst h
              simp [specPriorityBranches, h1, h2, h3]
          | error e =>
              rw [hb] at h
              simp only [Except.map] at h
              cases h
        · cases h
        · cases h
      · rw [if_neg h3] at h
        by_cases h4 : flagOn op "is_array"
        · rw [if_pos h4] at h
          split at h
          · injection h with h
            subst h
            simp [specPriorityBranches, h1, h2, h3, h4]
          · cases h
        · rw [if_neg h4] at h
          by_cases h5 : flagOn op "centroids"
          · rw [if_pos h5] at h
            split at h
            · injection h with h
              subst h
              simp [specPriorityBranches, h1, h2, h3, h4, h5]
            · cases h
          · rw [if_neg h5] at h
            by_cases h6 : flagOn op "is_sarimax"
            · rw [if_pos h6] at h
              injection h with h
              subst h
              simp [specPriorityBranches, h1, h2, h3, h4, h5, h6]
            · rw [if_neg h6] at h
              by_cases h7 : flagOn op "is_attractor"
              · rw [if_pos h7] at h
                cases ham : attractorMutate pred with
                | none =>
                    rw [ham] at h
                    simp only [Option.map] at h
                    cases h
                | some pm =>
                    rw [ham] at h
                    simp only [Option.map] at h
                    by_cases h8 : flagOn op "is_ordinal"
                    · rw [if_pos h8] at h
                      split at h
                      · injection h with h
                        subst h
                        simp [specPriorityBranches, h1, h2, h3, h4, h5, h6, h7, h8]
                      · cases h
                    · rw [if_neg h8] at h
                      injection h with h
                      subst h
                      simp [specPriorityBranches, h1, h2, h3, h4, h5, h6, h7, h8]
              · rw [if_neg h7] at h
                dsimp only at h
                by_cases h8 : flagOn op "is_ordinal"
                · rw [if_pos h8] at h
                  split at h
                  · injection h with h
                    subst h
                    simp [specPriorityBranches, h1, h2, h3, h4, h5, h6, h7, h8]
                  · cases h
                · rw [if_neg h8] at h
                  injection h with h
                  subst h
                  simp [specPriorityBranches, h1, h2, h3, h4, h5, h6, h7, h8]

theorem build_prediction_mvar (op : PDict) (opl : List PDict) (args pred : PDict)
    (out : BuildOut) (h1 : flagOn pred "mvar_x_ranges" = true)
    (h : build_prediction op opl args pred = .ok out) :
    ∃ dr rg, out = ⟨.multivarVBGMM dr rg, pred, [.mvar]⟩ := by
  unfold build_prediction at h
  rw [if_pos h1] at h
  split at h
  · injection h with h
    subst h
    exact ⟨_, _, rfl⟩
  · cases h

theorem specPriorityBranches_shape (op args pred : PDict) :
    (∃ b, specPriorityBranches op args pred = [b] ∧ b ≠ Branch.attractor) ∨
      (∃ b, specPriorityBranches op args pred = [Branch.attractor, b] ∧
        (b = Branch.ordinal ∨ b = Branch.gaussianDefault)) := by
  unfold specPriorityBranches
  repeat' split
  all_goals first
    | exact Or.inl ⟨_, rfl, by decide⟩
    | exact Or.inr ⟨_, rfl, by decide⟩

theorem build_prediction_no_flags (op : PDict) (opl : List PDict) (args pred : PDict)
    (h1 : flagOn pred "mvar_x_ranges" = false) (h2 : flagOn args "ar_quant" = false)
    (h3 : flagOn op "is_list" = false) (h4 : flagOn op "is_array" = false)
    (h5 : flagOn op "centroids" = false) (h6 : flagOn op "is_sarimax" = false)
    (h7 : flagOn op "is_attractor" = false) (h8 : flagOn op "is_ordinal" = false) :
    build_prediction op opl args pred =
      .ok ⟨.gaussianKw pred, pred, [.gaussianDefault]⟩ := by
  unfold build_prediction
  simp [h1, h2, h3, h4, h5, h6, h7, h8]

/-! ## The grid-search driver `StrategyExperiment.choose_model`

A hyperparameter specification maps axis names to values; after evaluation the
metric scores are stored into the same dict (`spec[metric] = test.eval(...)`),
so both hyperparameter values and scores are carried by `ℚ`. -/

/-- A hyperparameter specification / spec-report. -/
abbrev Spec : Type := Dict ℚ

/-- `spec = {k: v for k, v in zip(hypergrid_keys, next_config)}`. -/
def buildSpec (keys : List String) (config : List ℚ) : Spec :=
  Dict.insertMany [] (List.zip keys config)

/-- Python slice `ts[s:e]` with negative-index wrap-around (the seed window
start is computed before the assertion, so it can be negative here). -/
def pySlice (ts : List ℚ) (s e : Int) : List ℚ :=
  let n : Int := ts.length
  let s' : Int := if s < 0 then max (n + s) 0 else min s n
  let e' : Int := if e < 0 then max (n + e) 0 else min e n
  (ts.drop s'.toNat).take (e'.toNat - s'.toNat)

/-- Observable actions of one `choose_model` run, in program order: console
prints, Strategy calls, pickle dumps, plot saves and the assertion failure. -/
inductive Event where
  | printFname (fname : String)
  | loadDiag
  | loadModelEv (fname : String)
  | trainDiag (spec : Spec)
  | fitEv
  | saveModelEv
  | predictEv (input : List ℚ) (horizon : Nat)
  | dumpPredEv (fname : String)
  | newBestPrint (metric : String) (score : ℚ)
  | dumpSpecEv (fname : String)
  | plotSkip (key : String)
  | plotSave (fname : String)
  | assertFailEv (predictionIndex : Nat) (seedLength : Nat)
deriving DecidableEq

/-- A `TestDefinition`: a metric name, an evaluation function on predictions
and a better-than comparison rule. -/
structure Test (P : Type) where
  metric : String
  evalP : P → ℚ
  compare : ℚ → ℚ → Bool

/-- The external collaborators of `choose_model`: the Strategy class and the
prediction adapter.  `fit` maps the unfitted model to its fitted state,
`predict` consumes the model input and the horizon, `build` is
`self.build_prediction(·, pred_kwargs)`, `hasPlot` is the
`getattr(prediction, plot_key, None)`-plus-`callable` check. -/
structure Env (M P : Type) where
  getFilename : Spec → String
  loadModel : String → M
  newModel : Spec → M
  fit : M → M
  seedLength : M → Nat
  predict : M → List ℚ → Nat → P
  build : P → P
  hasPlot : P → String → Bool

/-- The file system seen by one experiment: the set of model files and the
contents of spec-report and prediction files.  A `none` content models a file
that is present but whose unpickling raises (corrupt / incompatible). -/
structure FS (P : Type) where
  models : List String
  specFiles : Dict (Option Spec)
  predFiles : Dict (Option P)
deriving DecidableEq

/-- The loop-carried state of `choose_model`: the file system, the two
best-tracking tables, the (lazily initialised) `model_input` local and the
event trace. -/
structure LoopState (P : Type) where
  fs : FS P
  bestResults : Dict (Option ℚ)
  bestStrategy : Dict (Option Spec)
  modelInput : Option (List ℚ)
  trace : List Event
deriving DecidableEq

/-- Result of one grid point: normal continuation or an `AssertionError`
(the seed-window assertion), which carries the state at the moment of
failure. -/
inductive StepResult (P : Type) where
  | ok (st : LoopState P)
  | abort (st : LoopState P)
deriving DecidableEq

/-- The state carried by either constructor. -/
def StepResult.state {P : Type} : StepResult P → LoopState P
  | .ok st => st
  | .abort st => st

/-- The non-varying arguments of the per-grid-point body. -/
structure Ctx (M P : Type) where
  env : Env M P
  tests : List (Test P)
  hypergridKeys : List String
  folder : String
  mode : String
  predictionIndex : Nat
  predictiveHorizon : Nat
  plots : List String
  evalTs : List ℚ

variable {M P : Type}

/-- `self.Strategy.get_filename(spec)` for this grid point. -/
def Ctx.fname (c : Ctx M P) (config : List ℚ) : String :=
  c.env.getFilename (buildSpec c.hypergridKeys config)

/-- `model_fname = self.folder + 'models/' + fname`. -/
def Ctx.modelFname (c : Ctx M P) (config : List ℚ) : String :=
  c.folder ++ "models/" ++ c.fname config

/-- `spec_fname = self.folder + 'logs/' + fname + '_{mode}_report'`. -/
def Ctx.specFname (c : Ctx M P) (config : List ℚ) : String :=
  c.folder ++ "logs/" ++ c.fname config ++ "_" ++ c.mode ++ "_report"

/-- `prediction_fname` with mode, prediction index and horizon. -/
def Ctx.predFname (c : Ctx M P) (config : List ℚ) : String :=
  c.folder ++ "predictions/" ++ c.fname config ++ "_" ++ c.mode ++
    "_pred_index_" ++ toString c.predictionIndex ++
    "_pred_horizon_" ++ toString c.predictiveHorizon

/-- Result of the guarded cache-load step. -/
structure LoadOut (P : Type) where
  spec : Spec
  pred : Option P
  diag : Bool
deriving DecidableEq

/-- The `try` block of `choose_model`: load the spec-report if its file
exists, then the prediction if its file exists; any unpickling failure is
caught, prints a diagnostic and leaves `pred_loaded_successfully = False`.
A corrupt spec file aborts the block before the prediction is read. -/
def loadStep (fs : FS P) (specFname predFname : String) (spec0 : Spec) : LoadOut P :=
  match Dict.get? fs.specFiles specFname with
  | some none => ⟨spec0, none, true⟩
  | some (some s) =>
      match Dict.get? fs.predFiles predFname with
      | some none => ⟨s, none, true⟩
      | some (some p) => ⟨s, some p, false⟩
      | none => ⟨s, none, false⟩
  | none =>
      match Dict.get? fs.predFiles predFname with
      | some none => ⟨spec0, none, true⟩
      | some (some p) => ⟨spec0, some p, false⟩
      | none => ⟨spec0, none, false⟩

/-- Result of cache-miss model acquisition. -/
structure ModelOut (M P : Type) where
  model : M
  fs : FS P
  evs : List Event

/-- Cache-miss model acquisition: load the model file if present, else
construct the strategy from the spec, fit it on the training frames and save
it.  Returns the model, the updated file system and the emitted events. -/
def obtainModel (env : Env M P) (fs : FS P) (modelFname : String) (spec : Spec) :
    ModelOut M P :=
  if modelFname ∈ fs.models then
    ⟨env.loadModel modelFname, fs, [.loadModelEv modelFname]⟩
  else
    ⟨env.fit (env.newModel spec),
      { fs with models := modelFname :: fs.models },
      [.trainDiag spec, .fitEv, .saveModelEv]⟩

/-- Accumulator of the per-test evaluation loop. -/
structure EvalAcc where
  spec : Spec
  br : Dict (Option ℚ)
  won : List String
  evs : List Event
deriving DecidableEq

/-- One step of the best-tracking update (lines `if best_results[metric] is
None or test.compare(spec[metric], best_results[metric]): ...`), folded over
the `(score, owning spec)` pairs seen for one metric. -/
def bestStep (t : Test P) (acc : Option ℚ × Option Spec) (x : ℚ × Spec) :
    Option ℚ × Option Spec :=
  match acc.1 with
  | none => (some x.1, some x.2)
  | some b => if t.compare x.1 b then (some x.1, some x.2) else acc

/-- The best-tracking fold for a single metric across a run. -/
def bestFold (t : Test P) (l : List (ℚ × Spec)) : Option ℚ × Option Spec :=
  l.foldl (bestStep t) (none, none)

/-- The `for test in tests` loop: score the prediction, store the score into
the spec, and update the running best for the metric.  `won` records the
metrics whose best was (re)established at this grid point; since Python
stores a reference to the mutable `spec` dict into `best_strategy`, those
entries all end up holding the point's final spec, which the caller applies
after the loop. -/
def evalLoop (p : P) : List (Test P) → EvalAcc → EvalAcc
  | [], acc => acc
  | t :: rest, acc =>
      let score := t.evalP p
      let spec' := Dict.insert acc.spec t.metric score
      match (Dict.get? acc.br t.metric).getD none with
      | none =>
          evalLoop p rest ⟨spec', Dict.insert acc.br t.metric (some score),
            acc.won ++ [t.metric], acc.evs ++ [.newBestPrint t.metric score]⟩
      | some b =>
          if t.compare score b then
            evalLoop p rest ⟨spec', Dict.insert acc.br t.metric (some score),
              acc.won ++ [t.metric], acc.evs ++ [.newBestPrint t.metric score]⟩
          else
            evalLoop p rest ⟨spec', acc.br, acc.won, acc.evs⟩

/-- The `for plot_key, plot_args in plots.items()` loop: a missing or
non-callable plot method is logged and skipped, otherwise the figure is
rendered and saved.  The plot argument bundles are opaque and elided. -/
def plotsLoop (env : Env M P) (p : P) (folder mode fname : String) :
    List String → List Event
  | [] => []
  | key :: rest =>
      (if env.hasPlot p key then
        [Event.plotSave (folder ++ "plots/" ++ key ++ "_" ++ mode ++ "_" ++ fname ++ ".pdf")]
      else [Event.plotSkip key]) ++ plotsLoop env p folder mode fname rest

/-- The tail of a grid point once a prediction is available: run all tests,
apply the best-strategy updates, persist the spec-report unconditionally,
then render the requested plots. -/
def finishPoint (c : Ctx M P) (config : List ℚ) (st : LoopState P)
    (spec : Spec) (prediction : P) : LoopState P :=
  let r := evalLoop prediction c.tests ⟨spec, st.bestResults, [], []⟩
  let bs' := r.won.foldl (fun bs m => Dict.insert bs m (some r.spec)) st.bestStrategy
  { fs :=
      { st.fs with
        specFiles := Dict.insert st.fs.specFiles (c.specFname config) (some r.spec) }
    bestResults := r.br
    bestStrategy := bs'
    modelInput := st.modelInput
    trace := st.trace ++ r.evs ++ [.dumpSpecEv (c.specFname config)] ++
      plotsLoop c.env prediction c.folder c.mode (c.fname config) c.plots }

/-- One iteration of `for next_config in expanded_hypergrid`. -/
def processPoint (c : Ctx M P) (st : LoopState P) (config : List ℚ) : StepResult P :=
  let L := loadStep st.fs (c.specFname config) (c.predFname config)
    (buildSpec c.hypergridKeys config)
  let tr1 := st.trace ++ [.printFname (c.modelFname config)] ++
    (if L.diag then [.loadDiag] else [])
  match L.pred with
  | some prediction =>
      .ok (finishPoint c config { st with trace := tr1 } L.spec prediction)
  | none =>
      let om := obtainModel c.env st.fs (c.modelFname config) L.spec
      let seedStart : Int := (c.predictionIndex : Int) - (c.env.seedLength om.model : Int)
      let mi := match st.modelInput with
        | some x => x
        | none => pySlice c.evalTs seedStart c.predictionIndex
      if seedStart < 0 then
        .abort
          { st with
            fs := om.fs
            modelInput := some mi
            trace := tr1 ++ om.evs ++
              [.assertFailEv c.predictionIndex (c.env.seedLength om.model)] }
      else
        .ok (finishPoint c config
          { st with
            fs :=
              { om.fs with
                predFiles := Dict.insert om.fs.predFiles (c.predFname config)
                  (some (c.env.build (c.env.predict om.model mi c.predictiveHorizon))) }
            modelInput := some mi
            trace := tr1 ++ om.evs ++
              [.predictEv mi c.predictiveHorizon, .dumpPredEv (c.predFname config)] }
          L.spec (c.env.build (c.env.predict om.model mi c.predictiveHorizon)))

/-- The grid loop; an assertion failure stops the run at that point. -/
def runGrid (c : Ctx M P) : LoopState P → List (List ℚ) → LoopState P × Bool
  | st, [] => (st, false)
  | st, config :: rest =>
      match processPoint c st config with
      | .ok st' => runGrid c st' rest
      | .abort st' => (st', true)

/-- `for test in tests: best_results[test.metric] = None`. -/
def initBest (tests : List (Test P)) : Dict (Option ℚ) :=
  tests.foldl (fun d t => Dict.insert d t.metric none) []

/-- `for test in tests: best_strategy[test.metric] = None`. -/
def initBestStrategy (tests : List (Test P)) : Dict (Option Spec) :=
  tests.foldl (fun d t => Dict.insert d t.metric none) []

/-- Result of `choose_model`: the returned `best_strategy` table (absent when
the run died on the seed-window assertion) and the final internal state. -/
structure Outcome (P : Type) where
  best : Option (Dict (Option Spec))
  state : LoopState P
deriving DecidableEq

/-- `StrategyExperiment.choose_model`.  Mirrors the source signature:
`eval_ts = dataset.val_ts / dataset.test_ts` unless overridden, both
best-tracking tables are pre-seeded with `None` per metric, then the grid is
folded; the method returns `best_strategy`.  `fs0` is the file system at
entry. -/
def choose_model (env : Env M P) (tests : List (Test P))
    (hypergridKeys : List String) (expandedHypergrid : List (List ℚ))
    (predictionIndex predictiveHorizon : Nat) (plots : List String)
    (mode : String) (evalTs0 modelInput0 : Option (List ℚ))
    (folder : String) (valTs testTs : List ℚ) (fs0 : FS P) : Outcome P :=
  let evalTs := match evalTs0 with
    | some ts => ts
    | none => if mode = "val" then valTs else testTs
  let c : Ctx M P := ⟨env, tests, hypergridKeys, folder, mode,
    predictionIndex, predictiveHorizon, plots, evalTs⟩
  let st0 : LoopState P :=
    ⟨fs0, initBest tests, initBestStrategy tests, modelInput0, []⟩
  let r := runGrid c st0 expandedHypergrid
  if r.2 then ⟨none, r.1⟩ else ⟨some r.1.bestStrategy, r.1⟩

/-! ## Structural lemmas about the grid-point body -/

/-- The `(metric, score)` pairs written into the spec by the test loop. -/
def scorePairs (tests : List (Test P)) (p : P) : List (String × ℚ) :=
  tests.map (fun t => (t.metric, t.evalP p))

theorem evalLoop_spec_eq (p : P) (tests : List (Test P)) (acc : EvalAcc) :
    (evalLoop p tests acc).spec = Dict.insertMany acc.spec (scorePairs tests p) := by
  induction tests generalizing acc with
  | nil => simp [evalLoop, scorePairs, Dict.insertMany]
  | cons t rest ih =>
      cases hbr : (Dict.get? acc.br t.metric).getD none with
      | none => simp [evalLoop, hbr, ih, scorePairs, Dict.insertMany]
      | some b =>
          by_cases hc : t.compare (t.evalP p) b
          · simp [evalLoop, hbr, hc, ih, scorePairs, Dict.insertMany]
          · simp [evalLoop, hbr, hc, ih, scorePairs, Dict.insertMany]

theorem evalLoop_br_isSome (p : P) (tests : List (Test P)) (acc : EvalAcc)
    (k : String) (h : (Dict.get? acc.br k).isSome) :
    (Dict.get? (evalLoop p tests acc).br k).isSome := by
  induction tests generalizing acc with
  | nil => simpa [evalLoop] using h
  | cons t rest ih =>
      cases hbr : (Dict.get? acc.br t.metric).getD none with
      | none =>
          simp only [evalLoop, hbr]
          exact ih _ (Dict.get?_isSome_insert acc.br t.metric k _ h)
      | some b =>
          by_cases hc : t.compare (t.evalP p) b
          · simp only [evalLoop, hbr, hc, if_true]
            exact ih _ (Dict.get?_isSome_insert acc.br t.metric k _ h)
          · simp only [evalLoop, hbr, hc, if_false]
            exact ih _ h

theorem evalLoop_evs_shape (p : P) (tests : List (Test P)) (acc : EvalAcc) :
    ∃ ext, (evalLoop p tests acc).evs = acc.evs ++ ext ∧
      ∀ e ∈ ext, ∃ m s, e = Event.newBestPrint m s := by
  induction tests generalizing acc with
  | nil => exact ⟨[], by simp [evalLoop], by simp⟩
  | cons t rest ih =>
      cases hbr : (Dict.get? acc.br t.metric).getD none with
      | none =>
          obtain ⟨ext, he, hm⟩ := ih ⟨Dict.insert acc.spec t.metric (t.evalP p),
            Dict.insert acc.br t.metric (some (t.evalP p)),
            acc.won ++ [t.metric], acc.evs ++ [.newBestPrint t.metric (t.evalP p)]⟩
          refine ⟨[.newBestPrint t.metric (t.evalP p)] ++ ext, ?_, ?_⟩
          · simp only [evalLoop, hbr]
            rw [he]
            simp
          · intro e hmem
            rcases List.mem_append.mp hmem with hmem | hmem
            · exact ⟨_, _, by simpa using hmem⟩
            · exact hm e hmem
      | some b =>
          by_cases hc : t.compare (t.evalP p) b
          · obtain ⟨ext, he, hm⟩ := ih ⟨Dict.insert acc.spec t.metric (t.evalP p),
              Dict.insert acc.br t.metric (some (t.evalP p)),
              acc.won ++ [t.metric], acc.evs ++ [.newBestPrint t.metric (t.evalP p)]⟩
            refine ⟨[.newBestPrint t.metric (t.evalP p)] ++ ext, ?_, ?_⟩
            · simp only [evalLoop, hbr, hc, if_true]
              rw [he]
              simp
            · intro e hmem
              rcases List.mem_append.mp hmem with hmem | hmem
              · exact ⟨_, _, by simpa using hmem⟩
              · exact hm e hmem
          · obtain ⟨ext, he, hm⟩ := ih ⟨Dict.insert acc.spec t.metric (t.evalP p),
              acc.br, acc.won, acc.evs⟩
            refine ⟨ext, ?_, hm⟩
            simp only [evalLoop, hbr, hc, if_false]
            exact he

theorem evalLoop_single_best (t : Test P) (p : P) (acc : EvalAcc) :
    (Dict.get? (evalLoop p [t] acc).br t.metric).getD none =
      (bestStep t ((Dict.get? acc.br t.metric).getD none, (none : Option Spec))
        (t.evalP p, Dict.insert acc.spec t.metric (t.evalP p))).1 := by
  cases hbr : (Dict.get? acc.br t.metric).getD none with
  | none => simp [evalLoop, hbr, bestStep, Dict.get?_insert_self]
  | some b =>
      by_cases hc : t.compare (t.evalP p) b
      · simp [evalLoop, hbr, hc, bestStep, Dict.get?_insert_self]
      · simp [evalLoop, hbr, hc, bestStep]

theorem plotsLoop_mem (env : Env M P) (p : P) (folder mode fname : String)
    (keys : List String) (e : Event) (h : e ∈ plotsLoop env p folder mode fname keys) :
    (∃ s, e = Event.plotSave s) ∨ ∃ k, e = Event.plotSkip k := by
  induction keys with
  | nil => simp [plotsLoop] at h
  | cons key rest ih =>
      by_cases hp : env.hasPlot p key
      · simp only [plotsLoop, hp, if_true] at h
        rcases List.mem_append.mp h with h | h
        · exact Or.inl ⟨_, by simpa using h⟩
        · exact ih h
      · simp only [plotsLoop, hp, if_false] at h
        rcases List.mem_append.mp h with h | h
        · exact Or.inr ⟨_, by simpa using h⟩
        · exact ih h

theorem foldl_insert_const_isSome (ms : List String) (bs : Dict (Option Spec))
    (x : Option Spec) (k : String) (h : (Dict.get? bs k).isSome) :
    (Dict.get? (ms.foldl (fun b m => Dict.insert b m x) bs) k).isSome := by
  induction ms generalizing bs with
  | nil => simpa using h
  | cons m rest ih =>
      simp only [List.foldl_cons]
      exact ih _ (Dict.get?_isSome_insert bs m k x h)

theorem finishPoint_fs_models (c : Ctx M P) (config : List ℚ) (st : LoopState P)
    (spec : Spec) (p : P) :
    (finishPoint c config st spec p).fs.models = st.fs.models := rfl

theorem finishPoint_fs_predFiles (c : Ctx M P) (config : List ℚ) (st : LoopState P)
    (spec : Spec) (p : P) :
    (finishPoint c config st spec p).fs.predFiles = st.fs.predFiles := rfl

theorem finishPoint_modelInput (c : Ctx M P) (config : List ℚ) (st : LoopState P)
    (spec : Spec) (p : P) :
    (finishPoint c config st spec p).modelInput = st.modelInput := rfl

theorem finishPoint_fs_specFiles (c : Ctx M P) (config : List ℚ) (st : LoopState P)
    (spec : Spec) (p : P) :
    (finishPoint c config st spec p).fs.specFiles =
      Dict.insert st.fs.specFiles (c.specFname config)
        (some (Dict.insertMany spec (scorePairs c.tests p))) := by
  simp [finishPoint, evalLoop_spec_eq]

theorem finishPoint_trace_shape (c : Ctx M P) (config : List ℚ) (st : LoopState P)
    (spec : Spec) (p : P) :
    ∃ ext, (finishPoint c config st spec p).trace = st.trace ++ ext ∧
      ∀ e ∈ ext, (∃ m s, e = Event.newBestPrint m s) ∨
        e = Event.dumpSpecEv (c.specFname config) ∨
        (∃ s, e = Event.plotSave s) ∨ ∃ k, e = Event.plotSkip k := by
  obtain ⟨ext0, he, hm⟩ := evalLoop_evs_shape p c.tests ⟨spec, st.bestResults, [], []⟩
  refine ⟨ext0 ++ [.dumpSpecEv (c.specFname config)] ++
    plotsLoop c.env p c.folder c.mode (c.fname config) c.plots, ?_, ?_⟩
  · have : (evalLoop p c.tests ⟨spec, st.bestResults, [], []⟩).evs = ext0 := by
      simpa using he
    simp [finishPoint, this]
  · intro e hmem
    rcases List.mem_append.mp hmem with hmem | hmem
    · rcases List.mem_append.mp hmem with hmem | hmem
      · exact Or.inl (hm e hmem)
      · exact Or.inr (Or.inl (by simpa using hmem))
    · exact Or.inr (Or.inr (plotsLoop_mem c.env p c.folder c.mode (c.fname config)
        c.plots e hmem))

theorem finishPoint_bestStrategy_isSome (c : Ctx M P) (config : List ℚ)
    (st : LoopState P) (spec : Spec) (p : P) (k : String)
    (h : (Dict.get? st.bestStrategy k).isSome) :
    (Dict.get? (finishPoint c config st spec p).bestStrategy k).isSome := by
  simp only [finishPoint]
  exact foldl_insert_const_isSome _ _ _ k h

/-- Is this event the `model.fit` call? -/
def Event.isFit : Event → Bool
  | .fitEv => true
  | _ => false

/-- Is this event a `model.predict` call? -/
def Event.isPredict : Event → Bool
  | .predictEv _ _ => true
  | _ => false

/-- The model input used when this grid point misses the prediction cache:
the already-initialised `model_input` local if present, else the seed-window
slice of `eval_ts` (computed before the assertion is checked, hence defined
even for a negative window start). -/
def pointMissInput (c : Ctx M P) (st : LoopState P) (config : List ℚ) (s : Spec) :
    List ℚ :=
  match st.modelInput with
  | some x => x
  | none =>
      pySlice c.evalTs ((c.predictionIndex : Int) -
        (c.env.seedLength (obtainModel c.env st.fs (c.modelFname config) s).model : Int))
        c.predictionIndex

/-- The prediction computed and persisted on a cache miss. -/
def pointMissPred (c : Ctx M P) (st : LoopState P) (config : List ℚ) (s : Spec) : P :=
  c.env.build (c.env.predict
    (obtainModel c.env st.fs (c.modelFname config) s).model
    (pointMissInput c st config s) c.predictiveHorizon)

theorem processPoint_hit (c : Ctx M P) (st : LoopState P) (config : List ℚ)
    (s : Spec) (p : P) (dg : Bool)
    (hL : loadStep st.fs (c.specFname config) (c.predFname config)
      (buildSpec c.hypergridKeys config) = ⟨s, some p, dg⟩) :
    processPoint c st config = .ok (finishPoint c config
      { st with
        trace := st.trace ++ [.printFname (c.modelFname config)] ++
          (if dg then [.loadDiag] else []) } s p) := by
  simp only [processPoint, hL]

theorem processPoint_miss_abort (c : Ctx M P) (st : LoopState P) (config : List ℚ)
    (s : Spec) (dg : Bool)
    (hL : loadStep st.fs (c.specFname config) (c.predFname config)
      (buildSpec c.hypergridKeys config) = ⟨s, none, dg⟩)
    (hseed : (c.predictionIndex : Int) -
      (c.env.seedLength (obtainModel c.env st.fs (c.modelFname config) s).model : Int) < 0) :
    processPoint c st config = .abort
      { st with
        fs := (obtainModel c.env st.fs (c.modelFname config) s).fs
        modelInput := some (pointMissInput c st config s)
        trace := st.trace ++ [.printFname (c.modelFname config)] ++
          (if dg then [.loadDiag] else []) ++
          (obtainModel c.env st.fs (c.modelFname config) s).evs ++
          [.assertFailEv c.predictionIndex
            (c.env.seedLength (obtainModel c.env st.fs (c.modelFname config) s).model)] } := by
  simp only [processPoint, hL, pointMissInput]
  rw [if_pos hseed]

theorem processPoint_miss_ok (c : Ctx M P) (st : LoopState P) (config : List ℚ)
    (s : Spec) (dg : Bool)
    (hL : loadStep st.fs (c.specFname config) (c.predFname config)
      (buildSpec c.hypergridKeys config) = ⟨s, none, dg⟩)
    (hseed : ¬ ((c.predictionIndex : Int) -
      (c.env.seedLength (obtainModel c.env st.fs (c.modelFname config) s).model : Int) < 0)) :
    processPoint c st config = .ok (finishPoint c config
      { st with
        fs :=
          { (obtainModel c.env st.fs (c.modelFname config) s).fs with
            predFiles := Dict.insert
              (obtainModel c.env st.fs (c.modelFname config) s).fs.predFiles
              (c.predFname config) (some (pointMissPred c st config s)) }
        modelInput := some (pointMissInput c st config s)
        trace := st.trace ++ [.printFname (c.modelFname config)] ++
          (if dg then [.loadDiag] else []) ++
          (obtainModel c.env st.fs (c.modelFname config) s).evs ++
          [.predictEv (pointMissInput c st config s) c.predictiveHorizon,
            .dumpPredEv (c.predFname config)] }
      s (pointMissPred c st config s)) := by
  simp only [processPoint, hL, pointMissInput, pointMissPred]
  rw [if_neg hseed]

theorem loadStep_pred_some (fs : FS P) (sf pf : String) (s0 s : Spec) (p : P)
    (dg : Bool) (h : loadStep fs sf pf s0 = ⟨s, some p, dg⟩) :
    Dict.get? fs.predFiles pf = some (some p) ∧ dg = false := by
  unfold loadStep at h
  rcases hs : Dict.get? fs.specFiles sf with _ | os
  · rw [hs] at h
    rcases hp : Dict.get? fs.predFiles pf with _ | op
    · rw [hp] at h
      cases h
    · cases op with
      | none =>
          rw [hp] at h
          cases h
      | some q =>
          rw [hp] at h
          injection h with h1 h2 h3
          injection h2 with h2
          exact ⟨by simp [hp, h2], h3.symm⟩
  · cases os with
    | none =>
        rw [hs] at h
        cases h
    | some sp =>
        rw [hs] at h
        rcases hp : Dict.get? fs.predFiles pf with _ | op
        · rw [hp] at h
          cases h
        · cases op with
          | none =>
              rw [hp] at h
              cases h
          | some q =>
              rw [hp] at h
              injection h with h1 h2 h3
              injection h2 with h2
              exact ⟨by simp [hp, h2], h3.symm⟩

theorem loadStep_of_files (fs : FS P) (sf pf : String) (s0 s : Spec) (p : P)
    (hspec : Dict.get? fs.specFiles sf = some (some s))
    (hpred : Dict.get? fs.predFiles pf = some (some p)) :
    loadStep fs sf pf s0 = ⟨s, some p, false⟩ := by
  unfold loadStep
  rw [hspec, hpred]

theorem FS.eq_of (a b : FS P) (h1 : a.models = b.models)
    (h2 : a.specFiles = b.specFiles) (h3 : a.predFiles = b.predFiles) : a = b := by
  cases a
  cases b
  simp_all

theorem obtainModel_fs_specFiles (env : Env M P) (fs : FS P) (f : String) (s : Spec) :
    (obtainModel env fs f s).fs.specFiles = fs.specFiles := by
  unfold obtainModel
  split <;> rfl

theorem obtainModel_fs_predFiles (env : Env M P) (fs : FS P) (f : String) (s : Spec) :
    (obtainModel env fs f s).fs.predFiles = fs.predFiles := by
  unfold obtainModel
  split <;> rfl

theorem obtainModel_evs_no_predict (env : Env M P) (fs : FS P) (f : String) (s : Spec) :
    ∀ e ∈ (obtainModel env fs f s).evs, e.isPredict = false := by
  unfold obtainModel
  split <;> intro e he <;> simp at he
  · subst he
    rfl
  · rcases he with he | he | he <;> subst he <;> rfl

theorem pointMissInput_of_some (c : Ctx M P) (st : LoopState P) (config : List ℚ)
    (s : Spec) (x : List ℚ) (h : st.modelInput = some x) :
    pointMissInput c st config s = x := by
  unfold pointMissInput
  rw [h]

theorem pointMissInput_of_none (c : Ctx M P) (st : LoopState P) (config : List ℚ)
    (s : Spec) (h : st.modelInput = none) :
    pointMissInput c st config s =
      pySlice c.evalTs ((c.predictionIndex : Int) -
        (c.env.seedLength (obtainModel c.env st.fs (c.modelFname config) s).model : Int))
        c.predictionIndex := by
  unfold pointMissInput
  rw [h]

theorem scorePairs_map_fst (tests : List (Test P)) (p : P) :
    (scorePairs tests p).map Prod.fst = tests.map Test.metric := by
  simp [scorePairs]

theorem insertMany_scorePairs_get (tests : List (Test P)) (p : P) (d : Spec)
    (hnd : (tests.map Test.metric).Nodup) (t : Test P) (ht : t ∈ tests) :
    Dict.get? (Dict.insertMany d (scorePairs tests p)) t.metric = some (t.evalP p) := by
  refine Dict.get?_insertMany_get d (scorePairs tests p) t.metric (t.evalP p) ?_ ?_
  · rw [scorePairs_map_fst]
    exact hnd
  · exact List.mem_map.mpr ⟨t, ht, rfl⟩

theorem processPoint_ok_files (c : Ctx M P) (st : LoopState P) (config : List ℚ)
    (st₁ : LoopState P) (h : processPoint c st config = .ok st₁) :
    ∃ s p, Dict.get? st₁.fs.specFiles (c.specFname config) =
        some (some (Dict.insertMany s (scorePairs c.tests p))) ∧
      Dict.get? st₁.fs.predFiles (c.predFname config) = some (some p) := by
  rcases hL : loadStep st.fs (c.specFname config) (c.predFname config)
      (buildSpec c.hypergridKeys config) with ⟨s, pr, dg⟩
  cases pr with
  | some p =>
      rw [processPoint_hit c st config s p dg hL] at h
      injection h with h
      subst h
      refine ⟨s, p, ?_, ?_⟩
      · rw [finishPoint_fs_specFiles]
        exact Dict.get?_insert_self _ _ _
      · rw [finishPoint_fs_predFiles]
        exact (loadStep_pred_some st.fs _ _ _ s p dg hL).1
  | none =>
      by_cases hseed : (c.predictionIndex : Int) -
          (c.env.seedLength (obtainModel c.env st.fs (c.modelFname config) s).model : Int) < 0
      · rw [processPoint_miss_abort c st config s dg hL hseed] at h
        cases h
      · rw [processPoint_miss_ok c st config s dg hL hseed] at h
        injection h with h
        subst h
        refine ⟨s, pointMissPred c st config s, ?_, ?_⟩
        · rw [finishPoint_fs_specFiles]
          exact Dict.get?_insert_self _ _ _
        · rw [finishPoint_fs_predFiles]
          exact Dict.get?_insert_self _ _ _

theorem processPoint_idem (c : Ctx M P) (st st₁ : LoopState P) (config : List ℚ)
    (hnd : (c.tests.map Test.metric).Nodup)
    (h : processPoint c st config = .ok st₁) :
    ∃ st₂ ext₂, processPoint c st₁ config = .ok st₂ ∧ st₂.fs = st₁.fs ∧
      st₂.trace = st₁.trace ++ ext₂ ∧
      ∀ e ∈ ext₂, e.isFit = false ∧ e.isPredict = false := by
  obtain ⟨s, p, hspec, hpred⟩ := processPoint_ok_files c st config st₁ h
  have hL2 := loadStep_of_files st₁.fs (c.specFname config) (c.predFname config)
    (buildSpec c.hypergridKeys config) (Dict.insertMany s (scorePairs c.tests p)) p
    hspec hpred
  have h2 := processPoint_hit c st₁ config (Dict.insertMany s (scorePairs c.tests p))
    p false hL2
  obtain ⟨ext0, htr, hkinds⟩ := finishPoint_trace_shape c config
    { st₁ with trace := st₁.trace ++ [.printFname (c.modelFname config)] ++
        (if false then [Event.loadDiag] else []) }
    (Dict.insertMany s (scorePairs c.tests p)) p
  refine ⟨_, [.printFname (c.modelFname config)] ++ ext0, h2, ?_, ?_, ?_⟩
  · apply FS.eq_of
    · rw [finishPoint_fs_models]
    · rw [finishPoint_fs_specFiles]
      have hidem : Dict.insertMany (Dict.insertMany s (scorePairs c.tests p))
          (scorePairs c.tests p) = Dict.insertMany s (scorePairs c.tests p) := by
        refine Dict.insertMany_idem s (scorePairs c.tests p) ?_
        rw [scorePairs_map_fst]
        exact hnd
      rw [hidem]
      exact Dict.insert_self _ _ _ hspec
    · rw [finishPoint_fs_predFiles]
  · rw [htr]
    simp
  · intro e he
    rcases List.mem_append.mp he with he | he
    · simp at he
      subst he
      exact ⟨rfl, rfl⟩
    · rcases hkinds e he with ⟨m, sc, rfl⟩ | rfl | ⟨ss, rfl⟩ | ⟨k, rfl⟩ <;>
        exact ⟨rfl, rfl⟩

theorem processPoint_abort_trace (c : Ctx M P) (st : LoopState P) (config : List ℚ)
    (st' : LoopState P) (h : processPoint c st config = .abort st') :
    ∃ ext, st'.trace = st.trace ++ ext ∧
      (∀ e ∈ ext, e.isPredict = false) ∧
      st'.trace.getLast? = some (.assertFailEv c.predictionIndex
        (c.env.seedLength (obtainModel c.env st.fs (c.modelFname config)
          (loadStep st.fs (c.specFname config) (c.predFname config)
            (buildSpec c.hypergridKeys config)).spec).model)) := by
  rcases hL : loadStep st.fs (c.specFname config) (c.predFname config)
      (buildSpec c.hypergridKeys config) with ⟨s, pr, dg⟩
  cases pr with
  | some p =>
      rw [processPoint_hit c st config s p dg hL] at h
      cases h
  | none =>
      by_cases hseed : (c.predictionIndex : Int) -
          (c.env.seedLength (obtainModel c.env st.fs (c.modelFname config) s).model : Int) < 0
      · rw [processPoint_miss_abort c st config s dg hL hseed] at h
        injection h with h
        subst h
        refine ⟨[.printFname (c.modelFname config)] ++
          (if dg then [Event.loadDiag] else []) ++
          (obtainModel c.env st.fs (c.modelFname config) s).evs ++
          [.assertFailEv c.predictionIndex
            (c.env.seedLength (obtainModel c.env st.fs (c.modelFname config) s).model)],
          ?_, ?_, ?_⟩
        · simp
        · intro e he
          rcases List.mem_append.mp he with he | he
          · rcases List.mem_append.mp he with he | he
            · rcases List.mem_append.mp he with he | he
              · simp at he
                subst he
                rfl
              · cases dg <;> simp at he
                subst he
                rfl
            · exact obtainModel_evs_no_predict c.env st.fs (c.modelFname config) s e he
          · simp at he
            subst he
            rfl
        · exact List.getLast?_concat _
      · rw [processPoint_miss_ok c st config s dg hL hseed] at h
        cases h

theorem processPoint_bestStrategy_isSome (c : Ctx M P) (st : LoopState P)
    (config : List ℚ) (k : String)
    (h : (Dict.get? st.bestStrategy k).isSome) :
    (Dict.get? (processPoint c st config).state.bestStrategy k).isSome := by
  rcases hL : loadStep st.fs (c.specFname config) (c.predFname config)
      (buildSpec c.hypergridKeys config) with ⟨s, pr, dg⟩
  cases pr with
  | some p =>
      rw [processPoint_hit c st config s p dg hL]
      exact finishPoint_bestStrategy_isSome c config _ s p k h
  | none =>
      by_cases hseed : (c.predictionIndex : Int) -
          (c.env.seedLength (obtainModel c.env st.fs (c.modelFname config) s).model : Int) < 0
      · rw [processPoint_miss_abort c st config s dg hL hseed]
        exact h
      · rw [processPoint_miss_ok c st config s dg hL hseed]
        exact finishPoint_bestStrategy_isSome c config _ s _ k h

theorem runGrid_bestStrategy_isSome (c : Ctx M P) (grid : List (List ℚ))
    (st : LoopState P) (k : String) (h : (Dict.get? st.bestStrategy k).isSome) :
    (Dict.get? (runGrid c st grid).1.bestStrategy k).isSome := by
  induction grid generalizing st with
  | nil => simpa [runGrid] using h
  | cons config rest ih =>
      cases hp : processPoint c st config with
      | ok st' =>
          simp only [runGrid, hp]
          refine ih st' ?_
          have := processPoint_bestStrategy_isSome c st config k h
          rwa [hp] at this
      | abort st' =>
          simp only [runGrid, hp]
          have := processPoint_bestStrategy_isSome c st config k h
          rwa [hp] at this

theorem runGrid_abort_trace (c : Ctx M P) (grid : List (List ℚ)) (st : LoopState P)
    (h : (runGrid c st grid).2 = true) :
    ∃ pi sl, (runGrid c st grid).1.trace.getLast? = some (.assertFailEv pi sl) := by
  induction grid generalizing st with
  | nil => simp [runGrid] at h
  | cons config rest ih =>
      cases hp : processPoint c st config with
      | ok st' =>
          simp only [runGrid, hp] at h ⊢
          exact ih st' h
      | abort st' =>
          simp only [runGrid, hp]
          obtain ⟨ext, _, _, hlast⟩ := processPoint_abort_trace c st config st' hp
          exact ⟨_, _, hlast⟩

theorem foldl_insert_tests_isSome (tests : List (Test P)) (d : Dict (Option Spec))
    (k : String) (h : (Dict.get? d k).isSome) :
    (Dict.get? (tests.foldl (fun d t => Dict.insert d t.metric none) d) k).isSome := by
  induction tests generalizing d with
  | nil => simpa using h
  | cons t rest ih =>
      simp only [List.foldl_cons]
      exact ih _ (Dict.get?_isSome_insert d t.metric k none h)

theorem initBestStrategy_isSome (tests : List (Test P)) (t : Test P) (ht : t ∈ tests) :
    (Dict.get? (initBestStrategy tests) t.metric).isSome := by
  unfold initBestStrategy
  suffices hgen : ∀ d : Dict (Option Spec), t ∈ tests →
      (Dict.get? (tests.foldl (fun d t => Dict.insert d t.metric none) d) t.metric).isSome by
    exact hgen [] ht
  clear ht
  induction tests with
  | nil => intro d ht; simp at ht
  | cons t' rest ih =>
      intro d ht
      rcases List.mem_cons.mp ht with rfl | ht
      · simp only [List.foldl_cons]
        exact foldl_insert_tests_isSome rest _ t.metric
          (by rw [Dict.get?_insert_self]; rfl)
      · simp only [List.foldl_cons]
        exact ih _ ht

theorem bestFold_go_mem (t : Test P)
    (hcmp : ∀ a b, t.compare a b = decide (b < a)) (l : List (ℚ × Spec)) :
    ∀ (b : ℚ) (s : Spec) (q : ℚ) (sp : Spec),
      l.foldl (bestStep t) (some b, some s) = (some q, some sp) →
      ((q, sp) = (b, s) ∨ (q, sp) ∈ l) ∧ b ≤ q ∧ ∀ x ∈ l, x.1 ≤ q := by
  induction l with
  | nil =>
      intro b s q sp h
      simp only [List.foldl_nil, Prod.mk.injEq] at h
      obtain ⟨h1, h2⟩ := h
      injection h1 with h1
      injection h2 with h2
      subst h1
      subst h2
      exact ⟨Or.inl rfl, le_refl _, by simp⟩
  | cons x rest ih =>
      intro b s q sp h
      simp only [List.foldl_cons] at h
      by_cases hab : b < x.1
      · rw [show bestStep t (some b, some s) x = (some x.1, some x.2) from by
          simp [bestStep, hcmp, hab]] at h
        obtain ⟨hmem, hle, hall⟩ := ih x.1 x.2 q sp h
        refine ⟨?_, le_of_lt (lt_of_lt_of_le hab hle), ?_⟩
        · rcases hmem with hmem | hmem
          · exact Or.inr (List.mem_cons.mpr (Or.inl (by rw [hmem])))
          · exact Or.inr (List.mem_cons.mpr (Or.inr hmem))
        · intro y hy
          rcases List.mem_cons.mp hy with rfl | hy
          · exact hle
          · exact hall y hy
      · rw [show bestStep t (some b, some s) x = (some b, some s) from by
          simp [bestStep, hcmp, hab]] at h
        obtain ⟨hmem, hle, hall⟩ := ih b s q sp h
        refine ⟨?_, hle, ?_⟩
        · rcases hmem with hmem | hmem
          · exact Or.inl hmem
          · exact Or.inr (List.mem_cons.mpr (Or.inr hmem))
        · intro y hy
          rcases List.mem_cons.mp hy with rfl | hy
          · exact le_trans (le_of_not_lt hab) hle
          · exact hall y hy

theorem bestFold_go_some (t : Test P) (l : List (ℚ × Spec)) :
    ∀ (b : ℚ) (s : Spec), ∃ q sp,
      l.foldl (bestStep t) (some b, some s) = (some q, some sp) := by
  induction l with
  | nil => intro b s; exact ⟨b, s, rfl⟩
  | cons x rest ih =>
      intro b s
      simp only [List.foldl_cons]
      by_cases hc : t.compare x.1 b
      · rw [show bestStep t (some b, some s) x = (some x.1, some x.2) from by
          simp [bestStep, hc]]
        exact ih x.1 x.2
      · rw [show bestStep t (some b, some s) x = (some b, some s) from by
          simp [bestStep, hc]]
        exact ih b s

theorem bestFold_max (t : Test P)
    (hcmp : ∀ a b, t.compare a b = decide (b < a)) (l : List (ℚ × Spec))
    (q : ℚ) (sp : Spec) (h : bestFold t l = (some q, some sp)) :
    (q, sp) ∈ l ∧ ∀ x ∈ l, x.1 ≤ q := by
  cases l with
  | nil => simp [bestFold] at h
  | cons x rest =>
      unfold bestFold at h
      simp only [List.foldl_cons] at h
      rw [show bestStep t (none, none) x = (some x.1, some x.2) from rfl] at h
      obtain ⟨hmem, hle, hall⟩ := bestFold_go_mem t hcmp rest x.1 x.2 q sp h
      refine ⟨?_, ?_⟩
      · rcases hmem with hmem | hmem
        · exact List.mem_cons.mpr (Or.inl (by rw [hmem]))
        · exact List.mem_cons.mpr (Or.inr hmem)
      · intro y hy
        rcases List.mem_cons.mp hy with rfl | hy
        · exact hle
        · exact hall y hy

theorem bestFold_some (t : Test P) (l : List (ℚ × Spec)) (hne : l ≠ []) :
    ∃ q sp, bestFold t l = (some q, some sp) := by
  cases l with
  | nil => exact absurd rfl hne
  | cons x rest =>
      unfold bestFold
      simp only [List.foldl_cons]
      rw [show bestStep t (none, none) x = (some x.1, some x.2) from rfl]
      exact bestFold_go_some t rest x.1 x.2

theorem processPoint_modelInput_eq (c : Ctx M P) (st : LoopState P) (config : List ℚ) :
    (processPoint c st config).state.modelInput =
      match (loadStep st.fs (c.specFname config) (c.predFname config)
          (buildSpec c.hypergridKeys config)).pred with
      | some _ => st.modelInput
      | none => some (pointMissInput c st config
          (loadStep st.fs (c.specFname config) (c.predFname config)
            (buildSpec c.hypergridKeys config)).spec) := by
  rcases hL : loadStep st.fs (c.specFname config) (c.predFname config)
      (buildSpec c.hypergridKeys config) with ⟨s, pr, dg⟩
  cases pr with
  | some p =>
      rw [processPoint_hit c st config s p dg hL]
      rfl
  | none =>
      by_cases hseed : (c.predictionIndex : Int) -
          (c.env.seedLength (obtainModel c.env st.fs (c.modelFname config) s).model : Int) < 0
      · rw [processPoint_miss_abort c st config s dg hL hseed]
        rfl
      · rw [processPoint_miss_ok c st config s dg hL hseed]
        rfl

theorem processPoint_predict_origin (c : Ctx M P) (st : LoopState P) (config : List ℚ)
    (mi : List ℚ) (h : Nat)
    (hmem : Event.predictEv mi h ∈ (processPoint c st config).state.trace) :
    Event.predictEv mi h ∈ st.trace ∨
      (mi = pointMissInput c st config
          (loadStep st.fs (c.specFname config) (c.predFname config)
            (buildSpec c.hypergridKeys config)).spec ∧
        h = c.predictiveHorizon) := by
  rcases hL : loadStep st.fs (c.specFname config) (c.predFname config)
      (buildSpec c.hypergridKeys config) with ⟨s, pr, dg⟩
  cases pr with
  | some p =>
      rw [processPoint_hit c st config s p dg hL] at hmem
      simp only [StepResult.state] at hmem
      obtain ⟨ext, htr, hkinds⟩ := finishPoint_trace_shape c config
        { st with trace := st.trace ++ [.printFname (c.modelFname config)] ++
            (if dg then [Event.loadDiag] else []) } s p
      rw [htr] at hmem
      simp only [List.mem_append] at hmem
      rcases hmem with ((hm | hm) | hm) | hm
      · exact Or.inl hm
      · simp at hm
      · cases dg <;> simp at hm
      · rcases hkinds _ hm with ⟨m', s', he⟩ | he | ⟨s', he⟩ | ⟨k, he⟩ <;> simp at he
  | none =>
      by_cases hseed : (c.predictionIndex : Int) -
          (c.env.seedLength (obtainModel c.env st.fs (c.modelFname config) s).model : Int) < 0
      · rw [processPoint_miss_abort c st config s dg hL hseed] at hmem
        simp only [StepResult.state] at hmem
        simp only [List.mem_append] at hmem
        rcases hmem with (((hm | hm) | hm) | hm) | hm
        · exact Or.inl hm
        · simp at hm
        · cases dg <;> simp at hm
        · have h2 := obtainModel_evs_no_predict c.env st.fs (c.modelFname config) s _ hm
          simp [Event.isPredict] at h2
        · simp at hm
      · rw [processPoint_miss_ok c st config s dg hL hseed] at hmem
        simp only [StepResult.state] at hmem
        obtain ⟨ext, htr, hkinds⟩ := finishPoint_trace_shape c config
          { st with
            fs :=
              { (obtainModel c.env st.fs (c.modelFname config) s).fs with
                predFiles := Dict.insert
                  (obtainModel c.env st.fs (c.modelFname config) s).fs.predFiles
                  (c.predFname config) (some (pointMissPred c st config s)) }
            modelInput := some (pointMissInput c st config s)
            trace := st.trace ++ [.printFname (c.modelFname config)] ++
              (if dg then [Event.loadDiag] else []) ++
              (obtainModel c.env st.fs (c.modelFname config) s).evs ++
              [.predictEv (pointMissInput c st config s) c.predictiveHorizon,
                .dumpPredEv (c.predFname config)] } s (pointMissPred c st config s)
        rw [htr] at hmem
        simp only [List.mem_append] at hmem
        rcases hmem with ((((hm | hm) | hm) | hm) | hm) | hm
        · exact Or.inl hm
        · simp at hm
        · cases dg <;> simp at hm
        · have h2 := obtainModel_evs_no_predict c.env st.fs (c.modelFname config) s _ hm
          simp [Event.isPredict] at h2
        · simp at hm
          exact Or.inr ⟨hm.1, hm.2⟩
        · rcases hkinds _ hm with ⟨m', s', he⟩ | he | ⟨s', he⟩ | ⟨k, he⟩ <;> simp at he

theorem str_append_left_inj (s a b : String) (h : s ++ a = s ++ b) : a = b := by
  have hd : s.data ++ a.data = s.data ++ b.data := by
    have := congrArg String.data h
    simpa [String.data_append] using this
  have h3 : a.data = b.data := List.append_cancel_left hd
  cases a
  cases b
  exact congrArg String.mk h3

theorem str_append_ne_self (s t : String) (ht : t ≠ "") : s ++ t ≠ s := by
  intro h
  apply ht
  have : s ++ t = s ++ "" := by simpa using h
  simpa using str_append_left_inj s t "" this

theorem str_append_ne_append (s a b : String) (hab : a ≠ b) : s ++ a ≠ s ++ b :=
  fun h => hab (str_append_left_inj s a b h)

/-! ## `Session.start_experiment` -/

/-- `os.makedirs(p)`: raises `FileExistsError` when the directory exists. -/
def makedirs (dirs : List String) (p : String) : Except String (List String) :=
  if p ∈ dirs then .error "FileExistsError" else .ok (dirs ++ [p])

/-- `Session.start_experiment(dataset, StrategyClass)`: if the strategy's
directory is absent, create it with its `models/`, `logs/`, `predictions/`
and `plots/` subdirectories; return the experiment's folder path (the
`StrategyExperiment` is bound to it). -/
def start_experiment (dirs : List String) (directory sid : String) :
    Except String (List String × String) :=
  if directory ++ sid ∈ dirs then .ok (dirs, directory ++ sid ++ "/")
  else
    match makedirs dirs (directory ++ sid) with
    | .error e => .error e
    | .ok d1 =>
        match makedirs d1 (directory ++ sid ++ "/models/") with
        | .error e => .error e
        | .ok d2 =>
            match makedirs d2 (directory ++ sid ++ "/logs/") with
            | .error e => .error e
            | .ok d3 =>
                match makedirs d3 (directory ++ sid ++ "/predictions/") with
                | .error e => .error e
                | .ok d4 =>
                    match makedirs d4 (directory ++ sid ++ "/plots/") with
                    | .error e => .error e
                    | .ok d5 => .ok (d5, directory ++ sid ++ "/")

theorem finishPoint_trace_mem (c : Ctx M P) (config : List ℚ) (st : LoopState P)
    (spec : Spec) (p : P) (e : Event) (he : e ∈ st.trace) :
    e ∈ (finishPoint c config st spec p).trace := by
  obtain ⟨ext, htr, _⟩ := finishPoint_trace_shape c config st spec p
  rw [htr]
  exact List.mem_append.mpr (Or.inl he)

theorem loadStep_corrupt (fs : FS P) (sf pf : String) (s0 : Spec)
    (hC : Dict.get? fs.specFiles sf = some none ∨
      Dict.get? fs.predFiles pf = some none) :
    (loadStep fs sf pf s0).diag = true ∧ (loadStep fs sf pf s0).pred = none := by
  unfold loadStep
  rcases hC with hC | hC
  · rw [hC]
    exact ⟨rfl, rfl⟩
  · rcases hs : Dict.get? fs.specFiles sf with _ | os
    · rw [hC]
      exact ⟨rfl, rfl⟩
    · cases os with
      | none => exact ⟨rfl, rfl⟩
      | some sp =>
          rw [hC]
          exact ⟨rfl, rfl⟩

theorem obtainModel_evs_cases (env : Env M P) (fs : FS P) (f : String) (s : Spec) :
    (obtainModel env fs f s).evs = [.loadModelEv f] ∨
      (obtainModel env fs f s).evs = [.trainDiag s, .fitEv, .saveModelEv] := by
  unfold obtainModel
  split
  · exact Or.inl rfl
  · exact Or.inr rfl

/-! ## Concrete instances for witnesses and counterexamples -/

/-- optional_params with both `is_attractor` and `is_ordinal` truthy. -/
def opAttractorOrdinal : PDict :=
  [("is_attractor", Val.num 1), ("is_ordinal", Val.num 1), ("bins", Val.arr [Val.num 0])]

/-- A one-field raw prediction holding a length-2 series. -/
def predSeries : PDict := [("y", Val.arr [Val.num 1, Val.num 2])]

/-- `predSeries` after attractor mutation and the ordinal bins insertion. -/
def predYOrd : PDict := [("y", Val.num 2), ("bins", Val.arr [Val.num 0])]

/-- optional_params with only the ordinal flag truthy. -/
def opOrdinalOnly : PDict := [("is_ordinal", Val.num 1), ("bins", Val.arr [Val.num 0])]

/-- A raw prediction carrying truthy `mvar_x_ranges` (plus `draws`). -/
def predMvar : PDict := [("mvar_x_ranges", Val.arr [Val.num 1]), ("draws", Val.arr [Val.num 2])]

/-- The mixture result `build_prediction` produces for `predMvar`. -/
def outMvar : BuildOut :=
  ⟨.multivarVBGMM (Val.arr [Val.num 2]) (Val.arr [Val.num 1]), predMvar, [.mvar]⟩

/-- A prediction dict with no flag keys at all. -/
def predNoFlags : PDict := [("y", Val.num 3)]

/-- The default Gaussian result for `predNoFlags`. -/
def outGauss : BuildOut := ⟨.gaussianKw predNoFlags, predNoFlags, [.gaussianDefault]⟩

/-- pred_args with the autoregressive-quantile flag. -/
def argsArQuant : PDict := [("ar_quant", Val.num 1)]

/-- Raw prediction for the ar_quant branch, holding batched fields. -/
def predArQuant : PDict :=
  [("ordinal_pdf", Val.arr [Val.arr [Val.num 1], Val.arr [Val.num 2]]),
   ("draws", Val.arr [Val.arr [Val.num 3], Val.arr [Val.num 4]])]

/-- `predArQuant` after both fields are replaced by their first elements. -/
def predArQuantMut : PDict :=
  [("ordinal_pdf", Val.arr [Val.num 1]), ("draws", Val.arr [Val.num 3])]

/-- optional_params with the array flag and bins. -/
def opArray : PDict := [("is_array", Val.num 1), ("bins", Val.arr [Val.num 5])]

/-- A one-field raw prediction. -/
def predX : PDict := [("x", Val.arr [Val.num 1])]

/-- `predX` with the dataset bins inserted by the array branch. -/
def predXBins : PDict := [("x", Val.arr [Val.num 1]), ("bins", Val.arr [Val.num 5])]

/-- optional_params with only the attractor flag. -/
def opAttractorOnly : PDict := [("is_attractor", Val.num 1)]

/-- `predSeries` after the attractor's last-time-step mutation. -/
def predYLast : PDict := [("y", Val.num 2)]

/-- optional_params with only the ordinal flag (bins value 7). -/
def opOrdBins7 : PDict := [("is_ordinal", Val.num 1), ("bins", Val.arr [Val.num 7])]

/-- A one-field raw prediction. -/
def predZ : PDict := [("z", Val.arr [Val.num 1])]

/-- `predZ` with the dataset bins inserted by the ordinal branch. -/
def predZBins : PDict := [("z", Val.arr [Val.num 1]), ("bins", Val.arr [Val.num 7])]

/-! ## Claim theorems: build_prediction -/

/-- C1: whenever `build_prediction` returns, the branch bodies that ran are
exactly those selected by the documented flag-priority order — a total,
deterministic function of the flags alone — and in particular an input with
truthy `mvar_x_ranges` yields the mixture variant (also when the dataset's
`is_ordinal` flag is set), never the ordinal one. -/
theorem claim_C1_variant_priority (op : PDict) (opl : List PDict) (args pred : PDict)
    (out : BuildOut) (h : build_prediction op opl args pred = .ok out) :
    out.fired = specPriorityBranches op args pred ∧
      (flagOn pred "mvar_x_ranges" = true →
        out.fired = [Branch.mvar] ∧ ∃ dr rg, out.variant = .multivarVBGMM dr rg) := by
  refine ⟨build_prediction_fired_eq op opl args pred out h, fun h1 => ?_⟩
  obtain ⟨dr, rg, hout⟩ := build_prediction_mvar op opl args pred out h1 h
  subst hout
  exact ⟨rfl, dr, rg, rfl⟩

/-- C1 witness: the priority theorem applied to a concrete input carrying
both `mvar_x_ranges` and `is_ordinal`; the mixture variant wins. -/
theorem claim_C1_witness :
    build_prediction opOrdinalOnly [] [] predMvar = .ok outMvar ∧
      (outMvar.fired = specPriorityBranches opOrdinalOnly [] predMvar ∧
        (flagOn predMvar "mvar_x_ranges" = true →
          outMvar.fired = [Branch.mvar] ∧
            ∃ dr rg, outMvar.variant = .multivarVBGMM dr rg)) :=
  ⟨by decide, claim_C1_variant_priority opOrdinalOnly [] [] predMvar outMvar (by decide)⟩

/-- C2 counterexample: with `is_attractor` and `is_ordinal` both set, two
branch bodies run on the same input — the attractor mutation and then the
ordinal wrapper over the mutated dict — refuting both "exactly one branch
fires" and "no second branch's behaviour is applied when is_attractor is
set". -/
theorem claim_C2_counterexample :
    build_prediction opAttractorOrdinal [] [] predSeries =
        .ok ⟨.ordinalPred predYOrd, predYOrd, [.attractor, .ordinal]⟩ ∧
      [Branch.attractor, Branch.ordinal].length ≠ 1 := by
  decide

/-- C2 (amended): exactly one returning branch fires (first match wins), and
an input matching no flag yields the raw Gaussian wrapper; the attractor
branch, however, is a non-returning mutation step: when it applies, exactly
one of the ordinal or default-Gaussian branches also fires, on the mutated
dict. -/
theorem claim_C2_one_returning_branch (op : PDict) (opl : List PDict)
    (args pred : PDict) (out : BuildOut)
    (h : build_prediction op opl args pred = .ok out) :
    ((∃ b, out.fired = [b] ∧ b ≠ Branch.attractor) ∨
      (∃ b, out.fired = [Branch.attractor, b] ∧
        (b = Branch.ordinal ∨ b = Branch.gaussianDefault))) ∧
      (flagOn pred "mvar_x_ranges" = false → flagOn args "ar_quant" = false →
        flagOn op "is_list" = false → flagOn op "is_array" = false →
        flagOn op "centroids" = false → flagOn op "is_sarimax" = false →
        flagOn op "is_attractor" = false → flagOn op "is_ordinal" = false →
        out = ⟨.gaussianKw pred, pred, [.gaussianDefault]⟩) := by
  constructor
  · rw [build_prediction_fired_eq op opl args pred out h]
    exact specPriorityBranches_shape op args pred
  · intro h1 h2 h3 h4 h5 h6 h7 h8
    have hno := build_prediction_no_flags op opl args pred h1 h2 h3 h4 h5 h6 h7 h8
    rw [hno] at h
    injection h with h
    exact h.symm

/-- C2 witness: the amended theorem applied to a flagless input, which takes
the default Gaussian branch alone. -/
theorem claim_C2_witness :
    ((∃ b, outGauss.fired = [b] ∧ b ≠ Branch.attractor) ∨
      (∃ b, outGauss.fired = [Branch.attractor, b] ∧
        (b = Branch.ordinal ∨ b = Branch.gaussianDefault))) ∧
      (flagOn predNoFlags "mvar_x_ranges" = false → flagOn [] "ar_quant" = false →
        flagOn [] "is_list" = false → flagOn [] "is_array" = false →
        flagOn [] "centroids" = false → flagOn [] "is_sarimax" = false →
        flagOn [] "is_attractor" = false → flagOn [] "is_ordinal" = false →
        outGauss = ⟨.gaussianKw predNoFlags, predNoFlags, [.gaussianDefault]⟩) :=
  claim_C2_one_returning_branch [] [] [] predNoFlags outGauss (by decide)

/-- C10: `build_prediction` is not side-effect-free on the caller's raw
prediction dict: the autoregressive-quantile branch replaces `ordinal_pdf`
and `draws` by their first elements, the array branch inserts a `bins` key,
the attractor branch overwrites every field with its last time step, and the
ordinal branch inserts `bins` — in each case the final dict differs from the
argument. -/
theorem claim_C10_mutation :
    (build_prediction [] [] argsArQuant predArQuant =
        .ok ⟨.multivariateOrdinal (Val.num 1) predArQuantMut, predArQuantMut,
          [.arQuant]⟩ ∧
      predArQuantMut ≠ predArQuant) ∧
    (build_prediction opArray [] [] predX =
        .ok ⟨.ordinalArray predXBins, predXBins, [.isArray]⟩ ∧
      predXBins ≠ predX) ∧
    (build_prediction opAttractorOnly [] [] predSeries =
        .ok ⟨.gaussianKw predYLast, predYLast, [.attractor, .gaussianDefault]⟩ ∧
      predYLast ≠ predSeries) ∧
    (build_prediction opOrdBins7 [] [] predZ =
        .ok ⟨.ordinalPred predZBins, predZBins, [.ordinal]⟩ ∧
      predZBins ≠ predZ) := by
  decide

/-! ## Concrete choose_model instances -/

/-- A trivial strategy environment over `M := Unit`, `P := ℚ`; filenames are
derived from the value of the hyperparameter axis `a`. -/
def envBest : Env Unit ℚ where
  getFilename := fun sp =>
    if (Dict.get? sp "a").getD 0 = 1 then "p1"
    else if (Dict.get? sp "a").getD 0 = 2 then "p2" else "p3"
  loadModel := fun _ => ()
  newModel := fun _ => ()
  fit := id
  seedLength := fun _ => 0
  predict := fun _ _ _ => 0
  build := id
  hasPlot := fun _ _ => false

/-- A higher-is-better test whose score is the prediction itself. -/
def testHigher : Test ℚ := ⟨"mse", id, fun a b => decide (b < a)⟩

/-- The grid-point context of the concrete best-tracking run. -/
def ctxBest : Ctx Unit ℚ := ⟨envBest, [testHigher], ["a"], "F/", "val", 7, 2, [], []⟩

/-- A file system caching predictions scoring 0.4, 0.9 and 0.6 for the three
grid points. -/
def fsBest : FS ℚ :=
  ⟨[], [], [(ctxBest.predFname [1], some (mkRat 4 10)),
    (ctxBest.predFname [2], some (mkRat 9 10)),
    (ctxBest.predFname [3], some (mkRat 6 10))]⟩

/-- Initial loop state over `fsBest` with the best tables seeded. -/
def stBest : LoopState ℚ := ⟨fsBest, [("mse", none)], [("mse", none)], none, []⟩

/-- An environment whose models all require seed length 5. -/
def envSeed5 : Env Unit ℚ where
  getFilename := fun _ => "m"
  loadModel := fun _ => ()
  newModel := fun _ => ()
  fit := id
  seedLength := fun _ => 5
  predict := fun _ _ _ => 0
  build := id
  hasPlot := fun _ _ => false

/-- Context with forecast start index 3 against seed length 5. -/
def ctxSeed5 : Ctx Unit ℚ := ⟨envSeed5, [], ["a"], "", "val", 3, 2, [], [1, 2, 3, 4, 5]⟩

/-- A loop state with empty caches. -/
def stEmpty : LoopState ℚ := ⟨⟨[], [], []⟩, [], [], none, []⟩

/-- A loop state with empty caches but a caller-supplied model input. -/
def stWithInput : LoopState ℚ := ⟨⟨[], [], []⟩, [], [], some [9], []⟩

/-- Context over `envBest` whose eval series is long enough for its models. -/
def ctxC4 : Ctx Unit ℚ :=
  ⟨envBest, [testHigher], ["a"], "F/", "val", 7, 2, [], [1, 2, 3, 4, 5, 6, 7]⟩

/-- A loop state whose prediction file for the first grid point is present
but corrupt. -/
def stCorrupt : LoopState ℚ :=
  ⟨⟨[], [], [(ctxC4.predFname [1], none)]⟩, [("mse", none)], [("mse", none)], none, []⟩

/-! ## Claim theorems: choose_model -/

/-- C3 counterexample: forecast start index 3 with seed length 5 and empty
caches aborts the run on the seed-window assertion, but `fit` has already
been invoked at that point — the failure does not occur before any model
call. -/
theorem claim_C3_counterexample :
    (choose_model envSeed5 [] ["a"] [[1]] 3 2 [] "val" (some [1, 2, 3, 4, 5]) none ""
        [] [] ⟨[], [], []⟩).best = none ∧
      Event.fitEv ∈ (choose_model envSeed5 [] ["a"] [[1]] 3 2 [] "val"
        (some [1, 2, 3, 4, 5]) none "" [] [] ⟨[], [], []⟩).state.trace := by
  decide

/-- C3 (amended): a grid point aborts exactly when its prediction cache
misses and the forecast start index is smaller than the seed length of the
model obtained for it (which by then has already been loaded or fitted); the
abort happens at the seed-window assertion, before that point's predict
call, and the assertion is the only way a grid point terminates the loop. -/
theorem claim_C3_seed_assertion (c : Ctx M P) (st : LoopState P) (config : List ℚ) :
    ((∃ st', processPoint c st config = .abort st') ↔
      ((loadStep st.fs (c.specFname config) (c.predFname config)
          (buildSpec c.hypergridKeys config)).pred = none ∧
        (c.predictionIndex : Int) <
          (c.env.seedLength (obtainModel c.env st.fs (c.modelFname config)
            (loadStep st.fs (c.specFname config) (c.predFname config)
              (buildSpec c.hypergridKeys config)).spec).model : Int))) ∧
    (∀ st', processPoint c st config = .abort st' →
      ∃ ext, st'.trace = st.trace ++ ext ∧ (∀ e ∈ ext, e.isPredict = false) ∧
        ∃ pi sl, st'.trace.getLast? = some (.assertFailEv pi sl)) := by
  constructor
  · rcases hL : loadStep st.fs (c.specFname config) (c.predFname config)
        (buildSpec c.hypergridKeys config) with ⟨s, pr, dg⟩
    cases pr with
    | some p =>
        refine iff_of_false ?_ ?_
        · rintro ⟨st', habs⟩
          rw [processPoint_hit c st config s p dg hL] at habs
          cases habs
        · rintro ⟨hpred, _⟩
          simp at hpred
    | none =>
        by_cases hseed : (c.predictionIndex : Int) -
            (c.env.seedLength (obtainModel c.env st.fs (c.modelFname config) s).model : Int) < 0
        · refine iff_of_true ⟨_, processPoint_miss_abort c st config s dg hL hseed⟩
            ⟨rfl, ?_⟩
          dsimp only
          omega
        · refine iff_of_false ?_ ?_
          · rintro ⟨st', habs⟩
            rw [processPoint_miss_ok c st config s dg hL hseed] at habs
            cases habs
          · rintro ⟨_, hlt⟩
            dsimp only at hlt
            exact hseed (by omega)
  · intro st' habs
    obtain ⟨ext, htr, hnp, hlast⟩ := processPoint_abort_trace c st config st' habs
    exact ⟨ext, htr, hnp, _, _, hlast⟩

/-- C3 witness: the amended characterization applied at prediction index 3
against seed length 5 with an empty cache yields the abort. -/
theorem claim_C3_witness :
    ∃ st', processPoint ctxSeed5 stEmpty [1] = .abort st' :=
  (claim_C3_seed_assertion ctxSeed5 stEmpty [1]).1.mpr ⟨by decide, by decide⟩

/-- C5: best-tracking is first-establishes-then-improve: for any test using
the strict higher-is-better comparator, the final best of the fold used by
the test loop is a maximal score in the evaluated list together with an
owning spec, and a best always exists once one spec was evaluated; on the
concrete grid of cached predictions scoring 0.4, 0.9 and 0.6, choose_model
reports best 0.9 owned by the second spec. -/
theorem claim_C5_best_tracking :
    (∀ (Q : Type) (t : Test Q) (l : List (ℚ × Spec)) (q : ℚ) (sp : Spec),
        (∀ a b, t.compare a b = decide (b < a)) →
        bestFold t l = (some q, some sp) →
        (q, sp) ∈ l ∧ ∀ x ∈ l, x.1 ≤ q) ∧
    (∀ (Q : Type) (t : Test Q) (l : List (ℚ × Spec)), l ≠ [] →
        ∃ q sp, bestFold t l = (some q, some sp)) ∧
    (choose_model envBest [testHigher] ["a"] [[1], [2], [3]] 7 2 [] "val" (some [])
        none "F/" [] [] fsBest).state.bestResults = [("mse", some (mkRat 9 10))] ∧
    (choose_model envBest [testHigher] ["a"] [[1], [2], [3]] 7 2 [] "val" (some [])
        none "F/" [] [] fsBest).best =
      some [("mse", some [("a", 2), ("mse", mkRat 9 10)])] :=
  ⟨fun _ t l q sp hc hf => bestFold_max t hc l q sp hf,
    fun _ t l hne => bestFold_some t l hne,
    by decide, by decide⟩

/-- C5 witness: the maximality part applied to the concrete score sequence
0.4, 0.9, 0.6 under the higher-is-better comparator. -/
theorem claim_C5_witness :
    ((mkRat 9 10, ([("a", 2)] : Spec)) ∈
        ([(mkRat 4 10, [("a", 1)]), (mkRat 9 10, [("a", 2)]),
          (mkRat 6 10, [("a", 3)])] : List (ℚ × Spec)) ∧
      ∀ x ∈ ([(mkRat 4 10, [("a", 1)]), (mkRat 9 10, [("a", 2)]),
          (mkRat 6 10, [("a", 3)])] : List (ℚ × Spec)), x.1 ≤ mkRat 9 10) :=
  claim_C5_best_tracking.1 ℚ testHigher _ (mkRat 9 10) [("a", 2)]
    (fun _ _ => rfl) (by decide)

/-- C4: a present-but-corrupt spec-report or prediction file is caught by the
guarded load step: a diagnostic is emitted, no prediction is considered
loaded, no exception escapes (the point still yields a normal ok/abort
result), and — whenever the seed window fits — the point recomputes in full
exactly as on a cache miss: the model is loaded or fitted, predict runs, and
the prediction is recomputed and re-persisted under its filename. -/
theorem claim_C4_corrupt_recovers (c : Ctx M P) (st : LoopState P) (config : List ℚ)
    (hC : Dict.get? st.fs.specFiles (c.specFname config) = some none ∨
      Dict.get? st.fs.predFiles (c.predFname config) = some none) :
    (loadStep st.fs (c.specFname config) (c.predFname config)
        (buildSpec c.hypergridKeys config)).diag = true ∧
    (loadStep st.fs (c.specFname config) (c.predFname config)
        (buildSpec c.hypergridKeys config)).pred = none ∧
    Event.loadDiag ∈ (processPoint c st config).state.trace ∧
    (¬ ((c.predictionIndex : Int) -
        (c.env.seedLength (obtainModel c.env st.fs (c.modelFname config)
          (loadStep st.fs (c.specFname config) (c.predFname config)
            (buildSpec c.hypergridKeys config)).spec).model : Int) < 0) →
      ∃ st', processPoint c st config = .ok st' ∧
        Dict.get? st'.fs.predFiles (c.predFname config) =
          some (some (pointMissPred c st config
            (loadStep st.fs (c.specFname config) (c.predFname config)
              (buildSpec c.hypergridKeys config)).spec)) ∧
        Event.predictEv (pointMissInput c st config
            (loadStep st.fs (c.specFname config) (c.predFname config)
              (buildSpec c.hypergridKeys config)).spec) c.predictiveHorizon ∈
          st'.trace ∧
        (Event.loadModelEv (c.modelFname config) ∈ st'.trace ∨
          Event.fitEv ∈ st'.trace)) := by
  obtain ⟨hdiag, hpred⟩ := loadStep_corrupt st.fs (c.specFname config)
    (c.predFname config) (buildSpec c.hypergridKeys config) hC
  rcases hL : loadStep st.fs (c.specFname config) (c.predFname config)
      (buildSpec c.hypergridKeys config) with ⟨s, pr, dg⟩
  rw [hL] at hdiag hpred
  simp only at hdiag hpred
  subst hdiag
  subst hpred
  refine ⟨rfl, rfl, ?_, ?_⟩
  · by_cases hseed : (c.predictionIndex : Int) -
        (c.env.seedLength (obtainModel c.env st.fs (c.modelFname config) s).model : Int) < 0
    · rw [processPoint_miss_abort c st config s true hL hseed]
      simp [StepResult.state]
    · rw [processPoint_miss_ok c st config s true hL hseed]
      simp only [StepResult.state]
      apply finishPoint_trace_mem
      simp
  · intro hseed
    simp only at hseed ⊢
    rw [processPoint_miss_ok c st config s true hL hseed]
    refine ⟨_, rfl, ?_, ?_, ?_⟩
    · rw [finishPoint_fs_predFiles]
      exact Dict.get?_insert_self _ _ _
    · apply finishPoint_trace_mem
      simp
    · rcases obtainModel_evs_cases c.env st.fs (c.modelFname config) s with hevs | hevs
      · refine Or.inl (finishPoint_trace_mem _ _ _ _ _ _ ?_)
        simp [hevs]
      · refine Or.inr (finishPoint_trace_mem _ _ _ _ _ _ ?_)
        simp [hevs]

/-- C4 witness: a state whose prediction file is present but corrupt emits
the diagnostic and falls through to full recomputation. -/
theorem claim_C4_witness :
    Event.loadDiag ∈ (processPoint ctxC4 stCorrupt [1]).state.trace ∧
      (∃ st', processPoint ctxC4 stCorrupt [1] = .ok st' ∧
        Dict.get? st'.fs.predFiles (ctxC4.predFname [1]) =
          some (some (pointMissPred ctxC4 stCorrupt [1]
            (loadStep stCorrupt.fs (ctxC4.specFname [1]) (ctxC4.predFname [1])
              (buildSpec ["a"] [1])).spec)) ∧
        Event.predictEv (pointMissInput ctxC4 stCorrupt [1]
            (loadStep stCorrupt.fs (ctxC4.specFname [1]) (ctxC4.predFname [1])
              (buildSpec ["a"] [1])).spec) 2 ∈ st'.trace ∧
        (Event.loadModelEv (ctxC4.modelFname [1]) ∈ st'.trace ∨
          Event.fitEv ∈ st'.trace)) := by
  have H := claim_C4_corrupt_recovers ctxC4 stCorrupt [1] (Or.inr (by decide))
  exact ⟨H.2.2.1, H.2.2.2 (by decide)⟩

/-- C6: when the prediction file loads successfully, the grid point invokes
neither fit nor predict, yet every test's metric is recomputed on the loaded
prediction and stored into the spec, the spec-report is persisted
unconditionally, and the prediction and model stores are untouched;
consequently a second run of the same grid point after any successful run
leaves the persisted artifacts identical, again without fit or predict. -/
theorem claim_C6_cache_hit_idempotent (c : Ctx M P) (st : LoopState P)
    (config : List ℚ) (hnd : (c.tests.map Test.metric).Nodup) :
    (∀ s p dg, loadStep st.fs (c.specFname config) (c.predFname config)
        (buildSpec c.hypergridKeys config) = ⟨s, some p, dg⟩ →
      ∃ st' ext spec', processPoint c st config = .ok st' ∧
        st'.trace = st.trace ++ ext ∧
        (∀ e ∈ ext, e.isFit = false ∧ e.isPredict = false) ∧
        Dict.get? st'.fs.specFiles (c.specFname config) = some (some spec') ∧
        (∀ t ∈ c.tests, Dict.get? spec' t.metric = some (t.evalP p)) ∧
        st'.fs.predFiles = st.fs.predFiles ∧ st'.fs.models = st.fs.models) ∧
    (∀ st₁, processPoint c st config = .ok st₁ →
      ∃ st₂ ext₂, processPoint c st₁ config = .ok st₂ ∧ st₂.fs = st₁.fs ∧
        st₂.trace = st₁.trace ++ ext₂ ∧
        ∀ e ∈ ext₂, e.isFit = false ∧ e.isPredict = false) := by
  constructor
  · intro s p dg hL
    obtain ⟨ext0, htr, hkinds⟩ := finishPoint_trace_shape c config
      { st with trace := st.trace ++ [.printFname (c.modelFname config)] ++
          (if dg then [Event.loadDiag] else []) } s p
    refine ⟨_, [.printFname (c.modelFname config)] ++
        (if dg then [Event.loadDiag] else []) ++ ext0,
      Dict.insertMany s (scorePairs c.tests p),
      processPoint_hit c st config s p dg hL, ?_, ?_, ?_, ?_, ?_, ?_⟩
    · rw [htr]
      simp
    · intro e he
      simp only [List.mem_append] at he
      rcases he with (he | he) | he
      · simp at he
        subst he
        exact ⟨rfl, rfl⟩
      · cases dg <;> simp at he
        subst he
        exact ⟨rfl, rfl⟩
      · rcases hkinds e he with ⟨m, sc, rfl⟩ | rfl | ⟨ss, rfl⟩ | ⟨k, rfl⟩ <;>
          exact ⟨rfl, rfl⟩
    · rw [finishPoint_fs_specFiles]
      exact Dict.get?_insert_self _ _ _
    · intro t ht
      exact insertMany_scorePairs_get c.tests p s hnd t ht
    · rw [finishPoint_fs_predFiles]
    · rw [finishPoint_fs_models]
  · intro st₁ h
    exact processPoint_idem c st st₁ config hnd h

/-- C6 witness: a concrete cache hit over the three cached predictions. -/
theorem claim_C6_witness :
    ∃ st' ext spec', processPoint ctxBest stBest [1] = .ok st' ∧
      st'.trace = stBest.trace ++ ext ∧
      (∀ e ∈ ext, e.isFit = false ∧ e.isPredict = false) ∧
      Dict.get? st'.fs.specFiles (ctxBest.specFname [1]) = some (some spec') ∧
      (∀ t ∈ ctxBest.tests, Dict.get? spec' t.metric = some (t.evalP (mkRat 4 10))) ∧
      st'.fs.predFiles = stBest.fs.predFiles ∧ st'.fs.models = stBest.fs.models :=
  (claim_C6_cache_hit_idempotent ctxBest stBest [1] (by decide)).1
    (buildSpec ["a"] [1]) (mkRat 4 10) false (by decide)

/-- C8: choose_model's returned best-strategy table contains an entry for
every test's metric, and the only error treated as fatal is the seed-window
assertion: when the run dies (no table is returned), the trace ends at the
assertion event; cache-load failures are absorbed inside the guarded load
step and never abort the loop. -/
theorem claim_C8_return_and_errors (env : Env M P) (tests : List (Test P))
    (keys : List String) (grid : List (List ℚ)) (pidx hor : Nat)
    (plots : List String) (mode : String) (evalTs0 mi0 : Option (List ℚ))
    (folder : String) (valTs testTs : List ℚ) (fs0 : FS P) :
    (∀ bs, (choose_model env tests keys grid pidx hor plots mode evalTs0 mi0 folder
        valTs testTs fs0).best = some bs →
      ∀ t ∈ tests, (Dict.get? bs t.metric).isSome) ∧
    ((choose_model env tests keys grid pidx hor plots mode evalTs0 mi0 folder
        valTs testTs fs0).best = none →
      ∃ pi sl, (choose_model env tests keys grid pidx hor plots mode evalTs0 mi0
        folder valTs testTs fs0).state.trace.getLast? =
          some (.assertFailEv pi sl)) := by
  simp only [choose_model]
  by_cases hr : (runGrid
      ⟨env, tests, keys, folder, mode, pidx, hor, plots,
        match evalTs0 with
        | some ts => ts
        | none => if mode = "val" then valTs else testTs⟩
      ⟨fs0, initBest tests, initBestStrategy tests, mi0, []⟩ grid).2 = true
  · rw [if_pos hr]
    constructor
    · intro bs habs
      cases habs
    · intro _
      exact runGrid_abort_trace _ grid _ hr
  · rw [if_neg hr]
    constructor
    · intro bs heq t ht
      injection heq with heq
      subst heq
      exact runGrid_bestStrategy_isSome _ grid _ t.metric
        (initBestStrategy_isSome tests t ht)
    · intro habs
      cases habs

/-- C8 witness: on the concrete best-tracking run the returned table has an
entry for the single metric. -/
theorem claim_C8_witness :
    (Dict.get? [("mse", some [("a", 2), ("mse", mkRat 9 10)])] "mse").isSome :=
  (claim_C8_return_and_errors envBest [testHigher] ["a"] [[1], [2], [3]] 7 2 []
      "val" (some []) none "F/" [] [] fsBest).1
    [("mse", some [("a", 2), ("mse", mkRat 9 10)])] (by decide) testHigher
    (by simp)

/-- C9: the `model_input` local is initialised at most once: if it is
already set it is preserved unchanged by every grid point — and every
predict call issued by the point uses exactly that input, whatever the
point's own model or seed length — while on the first cache-missing point
with no caller-supplied input it becomes the seed-window slice of `eval_ts`
for that point's model; a cache hit leaves it uninitialised. -/
theorem claim_C9_model_input_reuse (c : Ctx M P) (st : LoopState P)
    (config : List ℚ) :
    (∀ x, st.modelInput = some x →
      (processPoint c st config).state.modelInput = some x ∧
      (∀ mi h, Event.predictEv mi h ∈ (processPoint c st config).state.trace →
        Event.predictEv mi h ∈ st.trace ∨ mi = x)) ∧
    (∀ s dg, st.modelInput = none →
      loadStep st.fs (c.specFname config) (c.predFname config)
        (buildSpec c.hypergridKeys config) = ⟨s, none, dg⟩ →
      (processPoint c st config).state.modelInput =
        some (pySlice c.evalTs ((c.predictionIndex : Int) -
          (c.env.seedLength (obtainModel c.env st.fs (c.modelFname config) s).model : Int))
          c.predictionIndex)) ∧
    (∀ s p dg, st.modelInput = none →
      loadStep st.fs (c.specFname config) (c.predFname config)
        (buildSpec c.hypergridKeys config) = ⟨s, some p, dg⟩ →
      (processPoint c st config).state.modelInput = none) := by
  refine ⟨?_, ?_, ?_⟩
  · intro x hx
    constructor
    · rw [processPoint_modelInput_eq]
      rcases hpr : (loadStep st.fs (c.specFname config) (c.predFname config)
          (buildSpec c.hypergridKeys config)).pred with _ | p
      · rw [pointMissInput_of_some c st config _ x hx]
      · exact hx
    · intro mi h hmem
      rcases processPoint_predict_origin c st config mi h hmem with hm | ⟨hmi, _⟩
      · exact Or.inl hm
      · rw [pointMissInput_of_some c st config _ x hx] at hmi
        exact Or.inr hmi
  · intro s dg hnone hL
    rw [processPoint_modelInput_eq, hL]
    simp only
    rw [pointMissInput_of_none c st config _ hnone]
  · intro s p dg hnone hL
    rw [processPoint_modelInput_eq, hL]
    exact hnone

/-- C9 witness: a caller-supplied model input is preserved and is the input
of every predict call of the point. -/
theorem claim_C9_witness :
    (processPoint ctxSeed5 stWithInput [1]).state.modelInput = some [9] ∧
      (∀ mi h, Event.predictEv mi h ∈ (processPoint ctxSeed5 stWithInput [1]).state.trace →
        Event.predictEv mi h ∈ stWithInput.trace ∨ mi = [9]) :=
  (claim_C9_model_input_reuse ctxSeed5 stWithInput [1]).1 [9] rfl

/-- C7: start_experiment on a fresh session creates the strategy directory
with its four `models/`, `logs/`, `predictions/` and `plots/` subdirectories
and returns the experiment bound to the strategy's folder path; when the
strategy directory already exists the call is a no-op returning the same
path, so a second invocation with the same strategy id raises no error and
creates nothing. -/
theorem claim_C7_start_experiment (dirs : List String) (directory sid : String) :
    (directory ++ sid ∈ dirs →
      start_experiment dirs directory sid = .ok (dirs, directory ++ sid ++ "/")) ∧
    ((∀ p ∈ [directory ++ sid, directory ++ sid ++ "/models/",
        directory ++ sid ++ "/logs/", directory ++ sid ++ "/predictions/",
        directory ++ sid ++ "/plots/"], p ∉ dirs) →
      ∃ dirs', start_experiment dirs directory sid =
          .ok (dirs', directory ++ sid ++ "/") ∧
        (∀ p ∈ [directory ++ sid, directory ++ sid ++ "/models/",
          directory ++ sid ++ "/logs/", directory ++ sid ++ "/predictions/",
          directory ++ sid ++ "/plots/"], p ∈ dirs') ∧
        start_experiment dirs' directory sid =
          .ok (dirs', directory ++ sid ++ "/")) := by
  constructor
  · intro hmem
    unfold start_experiment
    rw [if_pos hmem]
  · intro hnot
    have h1 : directory ++ sid ∉ dirs := hnot _ (by simp)
    have h2 : directory ++ sid ++ "/models/" ∉ dirs := hnot _ (by simp)
    have h3 : directory ++ sid ++ "/logs/" ∉ dirs := hnot _ (by simp)
    have h4 : directory ++ sid ++ "/predictions/" ∉ dirs := hnot _ (by simp)
    have h5 : directory ++ sid ++ "/plots/" ∉ dirs := hnot _ (by simp)
    have n2 : directory ++ sid ++ "/models/" ≠ directory ++ sid :=
      str_append_ne_self _ _ (by decide)
    have n3 : directory ++ sid ++ "/logs/" ≠ directory ++ sid :=
      str_append_ne_self _ _ (by decide)
    have n4 : directory ++ sid ++ "/predictions/" ≠ directory ++ sid :=
      str_append_ne_self _ _ (by decide)
    have n5 : directory ++ sid ++ "/plots/" ≠ directory ++ sid :=
      str_append_ne_self _ _ (by decide)
    have n32 : directory ++ sid ++ "/logs/" ≠ directory ++ sid ++ "/models/" :=
      str_append_ne_append _ _ _ (by decide)
    have n42 : directory ++ sid ++ "/predictions/" ≠ directory ++ sid ++ "/models/" :=
      str_append_ne_append _ _ _ (by decide)
    have n43 : directory ++ sid ++ "/predictions/" ≠ directory ++ sid ++ "/logs/" :=
      str_append_ne_append _ _ _ (by decide)
    have n52 : directory ++ sid ++ "/plots/" ≠ directory ++ sid ++ "/models/" :=
      str_append_ne_append _ _ _ (by decide)
    have n53 : directory ++ sid ++ "/plots/" ≠ directory ++ sid ++ "/logs/" :=
      str_append_ne_append _ _ _ (by decide)
    have n54 : directory ++ sid ++ "/plots/" ≠ directory ++ sid ++ "/predictions/" :=
      str_append_ne_append _ _ _ (by decide)
    refine ⟨dirs ++ [directory ++ sid, directory ++ sid ++ "/models/",
      directory ++ sid ++ "/logs/", directory ++ sid ++ "/predictions/",
      directory ++ sid ++ "/plots/"], ?_, ?_, ?_⟩
    · simp [start_experiment, makedirs, h1, h2, h3, h4, h5, n2, n3, n4, n5,
        n32, n42, n43, n52, n53, n54]
    · simp
    · have hm : directory ++ sid ∈ dirs ++ [directory ++ sid,
          directory ++ sid ++ "/models/", directory ++ sid ++ "/logs/",
          directory ++ sid ++ "/predictions/", directory ++ sid ++ "/plots/"] := by
        simp
      unfold start_experiment
      rw [if_pos hm]

/-- C7 witness: a fresh session directory for strategy id lstm. -/
theorem claim_C7_witness :
    ∃ dirs', start_experiment [] "S/" "lstm" = .ok (dirs', "S/" ++ "lstm" ++ "/") ∧
      (∀ p ∈ ["S/" ++ "lstm", "S/" ++ "lstm" ++ "/models/",
        "S/" ++ "lstm" ++ "/logs/", "S/" ++ "lstm" ++ "/predictions/",
        "S/" ++ "lstm" ++ "/plots/"], p ∈ dirs') ∧
      start_experiment dirs' "S/" "lstm" = .ok (dirs', "S/" ++ "lstm" ++ "/") :=
  (claim_C7_start_experiment [] "S/" "lstm").2 (by simp)

end OrdinalTsf
